import Mathlib

/-!
Verification development for the gpscan directory scanner.

The embedding models the scanner's core from its Rust sources:

* `Gpscan.Scan.traverse_directory_to_xml` and `Gpscan.Scan.process_file_entry`
  follow `src/scan.rs` (the directory walker re-exported by `src/lib.rs`):
  per-directory metadata and listing checks, the mount-boundary check, name
  resolution, lexicographic sorting of entries, two-pass classification
  emitting File children before Folder children, hard-link deduplication via
  the shared visited-inode set, and the zero-size file filter.
* `Gpscan.Filesystem.run` follows the `run` pipeline of `src/filesystem.rs`:
  XML declaration and root element, the ScanInfo element (whose
  `fileSizeMeasure` attribute is the string literal `"physical"` in the
  source), the traversal, and the closing tags.
* `Gpscan.XmlOutput.sanitize_for_xml` follows `sanitize_for_xml` of
  `src/xml_output.rs`; `Gpscan.Xml.xml_escape` follows `xml_escape` of
  `src/xml.rs`; `Gpscan.qxEscape` models `quick_xml::escape::escape`, the
  function the walker applies to attribute values (the five XML entities).

The filesystem is modelled by `Gpscan.FsNode`: directory children are kept in
the (arbitrary) order the operating system returns them; per-node flags model
metadata-read and directory-listing failures; file metadata carries the inode
identity and both the logical and the physical size, mirroring the platform
adapter of `src/platform.rs` (`file_size(apparent)` selects between them).
XML output is modelled as the list of writer events (`Gpscan.XmlEvent`)
handed to the streaming writer, in emission order.
-/

namespace Gpscan

/-- Strict lexicographic comparison of codepoint lists, modelling Rust's
`str` ordering used by `entries.sort_by` (byte order on valid UTF-8 agrees
with codepoint order). -/
def charsLt : List Char → List Char → Bool
  | [], [] => false
  | [], _ :: _ => true
  | _ :: _, [] => false
  | a :: as, b :: bs => if a < b then true else if b < a then false else charsLt as bs

/-- Strict lexicographic order on strings (Rust `str::cmp` computing `Less`). -/
def strLt (a b : String) : Bool := charsLt a.data b.data

/-- Reflexive lexicographic order on strings (Rust `str::cmp` not computing
`Greater`), the comparator under which `sort_by` sorts. -/
def strLe (a b : String) : Bool := !(strLt b a)

/-- Asymmetry of the strict lexicographic comparison. -/
def charsLt_asymm : ∀ as bs : List Char, charsLt as bs = true → charsLt bs as = false := by
  intro as
  induction as with
  | nil =>
    intro bs h
    cases bs with
    | nil => simp [charsLt] at h
    | cons b bs => simp [charsLt]
  | cons a as ih =>
    intro bs h
    cases bs with
    | nil => simp [charsLt] at h
    | cons b bs =>
      rcases lt_trichotomy a b with hab | hab | hab
      · simp [charsLt, hab, lt_asymm hab]
      · subst hab
        simp [charsLt, lt_irrefl] at h ⊢
        exact ih bs h
      · simp [charsLt, hab, lt_asymm hab] at h

/-- The negation of the strict lexicographic comparison is transitive. -/
def charsLt_le_trans : ∀ as bs cs : List Char, charsLt bs as = false →
    charsLt cs bs = false → charsLt cs as = false := by
  intro as
  induction as with
  | nil =>
    intro bs cs h1 h2
    cases cs with
    | nil => rfl
    | cons c cs => rfl
  | cons a as ih =>
    intro bs cs h1 h2
    cases bs with
    | nil => simp [charsLt] at h1
    | cons b bs =>
      cases cs with
      | nil => simp [charsLt] at h2
      | cons c cs =>
        rcases lt_trichotomy b a with hba | hba | hba
        · simp [charsLt, hba] at h1
        · subst hba
          simp only [charsLt, if_neg (lt_irrefl b)] at h1
          rcases lt_trichotomy c b with hcb | hcb | hcb
          · simp [charsLt, hcb] at h2
          · subst hcb
            simp only [charsLt, if_neg (lt_irrefl c)] at h2 ⊢
            exact ih bs cs h1 h2
          · simp [charsLt, hcb, lt_asymm hcb]
        · rcases lt_trichotomy c b with hcb | hcb | hcb
          · simp [charsLt, hcb] at h2
          · subst hcb
            simp [charsLt, hba, lt_asymm hba]
          · have hca : a < c := lt_trans hba hcb
            simp [charsLt, hca, lt_asymm hca]

/-- Two lists unrelated by the strict lexicographic comparison are equal. -/
def charsLt_conn : ∀ as bs : List Char, charsLt as bs = false →
    charsLt bs as = false → as = bs := by
  intro as
  induction as with
  | nil =>
    intro bs h1 _
    cases bs with
    | nil => rfl
    | cons b bs => simp [charsLt] at h1
  | cons a as ih =>
    intro bs h1 h2
    cases bs with
    | nil => simp [charsLt] at h2
    | cons b bs =>
      rcases lt_trichotomy a b with hab | hab | hab
      · simp [charsLt, hab] at h1
      · subst hab
        simp only [charsLt, if_neg (lt_irrefl a)] at h1 h2
        exact congrArg (a :: ·) (ih bs h1 h2)
      · simp [charsLt, hab] at h2

/-- Asymmetry of `strLt`. -/
def strLt_asymm {a b : String} (h : strLt a b = true) : strLt b a = false :=
  charsLt_asymm _ _ h

/-- Totality of `strLe`. -/
def strLe_total (a b : String) : strLe a b = true ∨ strLe b a = true := by
  unfold strLe
  rcases hab : strLt b a with _ | _
  · left; simp
  · right; simp [strLt_asymm hab]

/-- Transitivity of `strLe`. -/
def strLe_trans {a b c : String} (h1 : strLe a b = true) (h2 : strLe b c = true) :
    strLe a c = true := by
  unfold strLe at h1 h2 ⊢
  simp only [Bool.not_eq_true'] at h1 h2 ⊢
  exact charsLt_le_trans _ _ _ h1 h2

/-- Strings unrelated by `strLt` in either direction are equal. -/
def strLt_conn {a b : String} (h1 : strLt a b = false) (h2 : strLt b a = false) :
    a = b :=
  String.ext (charsLt_conn _ _ h1 h2)

/-- File metadata as observed through the platform adapter of
`src/platform.rs`: the inode identity (`inode_number`, with `0` standing for
"identity unavailable"), the logical byte length, the physical on-disk size,
and the three formatted timestamps. -/
structure FileMeta where
  inode : Nat
  sizeLogical : Nat
  sizePhysical : Nat
  created : String
  modified : String
  accessed : String
deriving DecidableEq

instance : Inhabited FileMeta := ⟨⟨0, 0, 0, "", "", ""⟩⟩

/-- A filesystem entry as the walker observes it. A `dir` carries its name,
whether reading its own metadata succeeds (`metaOk`), its device id, its
three timestamps, whether listing its children succeeds (`listOk`), and its
children in the order the operating system returns them. A `file` carries
its name, whether `symlink_metadata` succeeds for it, and its metadata.
`symlink` and `other` stand for symbolic links and for entries that are
neither regular files, directories, nor symlinks (sockets, FIFOs, device
nodes). -/
inductive FsNode where
  | file (name : String) (metaOk : Bool) (meta : FileMeta)
  | dir (name : String) (metaOk : Bool) (dev : Nat) (created modified accessed : String)
      (listOk : Bool) (children : List FsNode)
  | symlink (name : String)
  | other (name : String)

/-- Base name of a directory entry (Rust `entry.file_name()`). -/
def entryName : FsNode → String
  | .file n _ _ => n
  | .dir n _ _ _ _ _ _ _ => n
  | .symlink n => n
  | .other n => n

/-- Children of a node (empty for non-directories). -/
def childrenOf : FsNode → List FsNode
  | .dir _ _ _ _ _ _ _ ch => ch
  | _ => []

/-- Classification test for the directory pass of the walker's two-pass
loop: a directory entry whose metadata was readable. -/
def isOkDir : FsNode → Bool
  | .dir _ mok _ _ _ _ _ _ => mok
  | _ => false

/-- Classification test for the file pass of the walker's two-pass loop: a
regular file whose metadata was readable. -/
def isOkFile : FsNode → Bool
  | .file _ mok _ => mok
  | _ => false

/-- Name and metadata of a file entry (junk on other constructors; only used
beneath an `isOkFile` filter). -/
def fileKey : FsNode → String × FileMeta
  | .file n _ m => (n, m)
  | e => (entryName e, default)

/-- The comparator `a.file_name().cmp(&b.file_name())` of `entries.sort_by`
in `src/scan.rs`. -/
def entryLe (a b : FsNode) : Prop := strLe (entryName a) (entryName b) = true

instance : DecidableRel entryLe := fun a b => by unfold entryLe; infer_instance

instance : IsTotal FsNode entryLe :=
  ⟨fun a b => strLe_total (entryName a) (entryName b)⟩

instance : IsTrans FsNode entryLe :=
  ⟨fun _ _ _ h1 h2 => strLe_trans h1 h2⟩

/-- The scan options of `src/options.rs` that the walker consults. -/
structure Options where
  apparent_size : Bool
  cross_mount_points : Bool
  include_zero_files : Bool
  include_empty_folders : Bool
deriving DecidableEq

/-- An event handed to the streaming XML writer: the XML declaration, an
element opening tag with its attribute list, a self-closing element, or a
closing tag. -/
inductive XmlEvent where
  | decl (version : String) (encoding : String)
  | start (tag : String) (attrs : List (String × String))
  | emptyElem (tag : String) (attrs : List (String × String))
  | close (tag : String)
deriving DecidableEq

/-- Model of `quick_xml::escape::escape` on one character: the five standard
XML entities, everything else unchanged. Codepoints: 38 `&`, 60 `<`, 62 `>`,
34 double quote, 39 apostrophe. -/
def qxEscapeChar (c : Char) : List Char :=
  if c.toNat = 38 then "&amp;".data
  else if c.toNat = 60 then "&lt;".data
  else if c.toNat = 62 then "&gt;".data
  else if c.toNat = 34 then "&quot;".data
  else if c.toNat = 39 then "&apos;".data
  else [c]

/-- Model of `quick_xml::escape::escape`, applied by the walker to attribute
values before `push_attribute`. -/
def qxEscape (s : String) : String := String.mk (s.data.map qxEscapeChar).flatten

/-- Upper-case hexadecimal digit for a value below 16. -/
def hexDigit (n : Nat) : Char :=
  if n < 10 then Char.ofNat (48 + n) else Char.ofNat (55 + n)

/-- Upper-case hexadecimal digits of a number, most significant first,
modelling Rust's `format` specifier `X` (so `0` renders as `"0"`). -/
def hexChars (n : Nat) : List Char :=
  if _h : n < 16 then [hexDigit n]
  else hexChars (n / 16) ++ [hexDigit (n % 16)]
termination_by n
decreasing_by
  exact Nat.div_lt_self (by omega) (by omega)

/-- A numeric character reference `&#xHH;` for a character, in upper-case
hexadecimal. -/
def numCharRef (c : Char) : List Char :=
  '&' :: '#' :: 'x' :: hexChars c.toNat ++ [';']

namespace XmlOutput

/-- Per-character behaviour of `sanitize_for_xml` in `src/xml_output.rs`:
the C0 control ranges 0x00-0x08, 0x0B-0x0C, 0x0E-0x1F plus DEL (0x7F) become
numeric character references; tab (9), line feed (10), carriage return (13)
pass through; the five XML specials become entities; everything else passes
through. -/
def sanitizeChar (c : Char) : List Char :=
  if c.toNat ≤ 8 ∨ (11 ≤ c.toNat ∧ c.toNat ≤ 12) ∨ (14 ≤ c.toNat ∧ c.toNat ≤ 31)
      ∨ c.toNat = 127 then
    numCharRef c
  else if c.toNat = 9 ∨ c.toNat = 10 ∨ c.toNat = 13 then [c]
  else if c.toNat = 38 then "&amp;".data
  else if c.toNat = 60 then "&lt;".data
  else if c.toNat = 62 then "&gt;".data
  else if c.toNat = 34 then "&quot;".data
  else if c.toNat = 39 then "&apos;".data
  else [c]

/-- Model of `sanitize_for_xml` in `src/xml_output.rs`. -/
def sanitize_for_xml (s : String) : String :=
  String.mk (s.data.map sanitizeChar).flatten

end XmlOutput

/-- Rust's `char::is_control`: the Unicode Cc category, 0x00-0x1F and
0x7F-0x9F. -/
def rustIsControl (c : Char) : Bool :=
  c.toNat ≤ 31 || (127 ≤ c.toNat && c.toNat ≤ 159)

namespace Xml

/-- Per-character behaviour of `xml_escape` in `src/xml.rs`: the five XML
specials become entities; any control character (per `char::is_control`,
with no exemption for tab, line feed, or carriage return) and U+FFFD become
numeric character references; everything else passes through. -/
def xmlEscapeChar (c : Char) : List Char :=
  if c.toNat = 38 then "&amp;".data
  else if c.toNat = 60 then "&lt;".data
  else if c.toNat = 62 then "&gt;".data
  else if c.toNat = 34 then "&quot;".data
  else if c.toNat = 39 then "&apos;".data
  else if rustIsControl c || c.toNat = 65533 then numCharRef c
  else [c]

/-- Model of `xml_escape` in `src/xml.rs`. -/
def xml_escape (s : String) : String :=
  String.mk (s.data.map xmlEscapeChar).flatten

end Xml

/-- The `Folder` opening event with the attribute list built in
`traverse_directory_to_xml` (name escaped, then the three timestamps). -/
def folderStart (name tCr tMo tAc : String) : XmlEvent :=
  .start "Folder" [("name", qxEscape name), ("created", tCr), ("modified", tMo),
    ("accessed", tAc)]

/-- The self-closing `File` event with the attribute list built in
`process_file_entry`. -/
def fileElem (name : String) (size : Nat) (m : FileMeta) : XmlEvent :=
  .emptyElem "File" [("name", qxEscape name), ("size", toString size),
    ("created", m.created), ("modified", m.modified), ("accessed", m.accessed)]

namespace Scan

/-- The platform adapter's `file_size(apparent)`: logical byte length when
apparent-size mode is active, physical on-disk size otherwise. -/
def file_size (m : FileMeta) (apparent : Bool) : Nat :=
  if apparent then m.sizeLogical else m.sizePhysical

/-- Model of `process_file_entry` in `src/scan.rs`: skip if the inode is in
the visited set; otherwise record the inode, then skip zero-size files when
they are not included, else emit the `File` element. -/
def process_file_entry (opts : Options) (name : String) (meta : FileMeta)
    (visited : List Nat) : List Nat × List XmlEvent :=
  if meta.inode ∈ visited then (visited, [])
  else
    let visited' := meta.inode :: visited
    let size := file_size meta opts.apparent_size
    if size = 0 ∧ opts.include_zero_files = false then (visited', [])
    else (visited', [fileElem name size meta])

/-- The walker's first pass: process the classified file entries in order,
threading the visited-inode set. -/
def process_files (opts : Options) : List (String × FileMeta) → List Nat →
    List Nat × List XmlEvent
  | [], v => (v, [])
  | (n, m) :: rest, v =>
    let r := process_file_entry opts n m v
    let r2 := process_files opts rest r.1
    (r2.1, r.2 ++ r2.2)

/-- The file vector of the walker's classification loop: entries whose
metadata is readable and whose file type is a regular file, in list order. -/
def fileChildren (l : List FsNode) : List (String × FileMeta) :=
  (l.filter isOkFile).map fileKey

/-- The directory vector of the walker's classification loop: entries whose
metadata is readable and whose file type is a directory, in list order.
Symlinks and unknown file types fall through both vectors. -/
def dirChildren (l : List FsNode) : List FsNode := l.filter isOkDir

/-- The `entries.sort_by(|a, b| a.file_name() cmp b.file_name())` step: a
stable sort under the lexicographic comparator. -/
def sortEntries (l : List FsNode) : List FsNode := l.insertionSort entryLe

mutual

/-- Termination weight of a node: directories weigh more than the sum of
their children. -/
def nodeW : FsNode → Nat
  | .dir _ _ _ _ _ _ _ ch => 1 + 2 * listW ch
  | _ => 1

/-- Termination weight of a list of nodes. -/
def listW : List FsNode → Nat
  | [] => 0
  | n :: ns => nodeW n + listW ns

end

/-- Every node weighs at least one. -/
def one_le_nodeW (n : FsNode) : 1 ≤ nodeW n := by
  cases n <;> simp [nodeW]

/-- A list weighs at least its length. -/
def length_le_listW : ∀ l : List FsNode, l.length ≤ listW l := by
  intro l
  induction l with
  | nil => simp [listW]
  | cons a t ih =>
    have := one_le_nodeW a
    simp only [List.length_cons, listW]
    omega

/-- Weight is invariant under permutation. -/
def listW_perm : ∀ {l₁ l₂ : List FsNode}, l₁.Perm l₂ → listW l₁ = listW l₂ := by
  intro l₁ l₂ h
  induction h with
  | nil => rfl
  | cons x _ ih => simp [listW, ih]
  | swap x y l => simp [listW]; omega
  | trans _ _ ih₁ ih₂ => omega

/-- Weight is monotone under sublists. -/
def listW_sublist : ∀ {l₁ l₂ : List FsNode}, List.Sublist l₁ l₂ →
    listW l₁ ≤ listW l₂ := by
  intro l₁ l₂ h
  induction h with
  | slnil => exact Nat.le_refl _
  | cons a _ ih => simp only [listW]; omega
  | cons₂ a _ ih => simp only [listW]; omega

/-- Sorting preserves weight. -/
def listW_sortEntries (l : List FsNode) : listW (sortEntries l) = listW l :=
  listW_perm (List.perm_insertionSort _ l)

mutual

/-- Model of `traverse_directory_to_xml` in `src/scan.rs`. Following the
source, in order: if the node's own metadata is unreadable, return silently;
if mount crossing is disabled and the device differs from the root device,
skip; resolve the display name (root keeps the full input path string);
if listing the children fails, return silently; if the directory is empty
and empty folders are not included, skip; sort the entries by name; emit the
Folder opening tag; classify entries into files and subdirectories (skipping
symlinks, entries with unreadable metadata, and unknown file types); process
all files, then recurse into all subdirectories; emit the Folder closing
tag. Returns the updated visited-inode set and the emitted events. -/
def traverse_directory_to_xml (opts : Options) (rootDev : Nat) (node : FsNode)
    (isRoot : Bool) (rootName : String) (visited : List Nat) :
    List Nat × List XmlEvent :=
  match node with
  | .dir nm metaOk dev tCr tMo tAc listOk children =>
    if metaOk = false then (visited, [])
    else if opts.cross_mount_points = false ∧ dev ≠ rootDev then (visited, [])
    else
      let name := if isRoot then rootName else nm
      if listOk = false then (visited, [])
      else if children.isEmpty ∧ opts.include_empty_folders = false then (visited, [])
      else
        let sorted := sortEntries children
        let r1 := process_files opts (fileChildren sorted) visited
        let r2 := traverse_entries opts rootDev rootName (dirChildren sorted) r1.1
        (r2.1, folderStart name tCr tMo tAc :: (r1.2 ++ r2.2) ++ [XmlEvent.close "Folder"])
  | _ => (visited, [])
termination_by nodeW node
decreasing_by
  simp only [nodeW]
  have key : ∀ ch : List FsNode,
      listW (dirChildren (sortEntries ch)) + (dirChildren (sortEntries ch)).length <
        1 + 2 * listW ch := by
    intro ch
    have h1 : listW (dirChildren (sortEntries ch)) ≤ listW (sortEntries ch) :=
      listW_sublist (List.filter_sublist _)
    have h2 := listW_sortEntries ch
    have h3 := length_le_listW (dirChildren (sortEntries ch))
    omega
  exact key _

/-- The walker's second pass: recurse into the classified subdirectories in
order, threading the visited-inode set and concatenating the emitted
events. -/
def traverse_entries (opts : Options) (rootDev : Nat) (rootName : String) :
    List FsNode → List Nat → List Nat × List XmlEvent
  | [], v => (v, [])
  | d :: rest, v =>
    let r := traverse_directory_to_xml opts rootDev d false rootName v
    let r2 := traverse_entries opts rootDev rootName rest r.1
    (r2.1, r.2 ++ r2.2)
termination_by ds => listW ds + ds.length
decreasing_by
  · simp only [listW, List.length_cons]
    omega
  · have := one_le_nodeW d
    simp only [listW, List.length_cons]
    omega

end

/-- The guard under which the walker emits a Folder element for a node:
readable metadata, device allowed, readable listing, and not an
empty-and-excluded directory. -/
def emitsFolder (opts : Options) (rootDev : Nat) : FsNode → Bool
  | .dir _ mok dev _ _ _ lok ch =>
    mok && (opts.cross_mount_points || dev == rootDev) && lok &&
      (!ch.isEmpty || opts.include_empty_folders)
  | _ => false

end Scan

namespace Filesystem

/-- The events of `output_xml_header` in `src/filesystem.rs`: the XML
declaration (version `1.0`, encoding `UTF-8`) and the
`GrandPerspectiveScanDump` root element with the format identifier pair. -/
def output_xml_header : List XmlEvent :=
  [.decl "1.0" "UTF-8",
   .start "GrandPerspectiveScanDump" [("appVersion", "4"), ("formatVersion", "7")]]

/-- The `ScanInfo` opening event built in `run` of `src/filesystem.rs`; the
`fileSizeMeasure` attribute is the string literal `"physical"` in the
source. -/
def scan_info_event (volumePath : String) (volumeSize freeSpace : Nat)
    (scanTime : String) : XmlEvent :=
  .start "ScanInfo"
    [("volumePath", qxEscape volumePath), ("volumeSize", toString volumeSize),
     ("freeSpace", toString freeSpace), ("scanTime", scanTime),
     ("fileSizeMeasure", "physical")]

/-- Model of the output stream of `run` in `src/filesystem.rs`, after the
fatal precondition checks: header, ScanInfo opening, the traversal of the
root with a fresh visited-inode set, and the two closing tags. The volume
lookup results and the scan timestamp enter as parameters. -/
def run (opts : Options) (rootName : String) (rootDev : Nat) (volumePath : String)
    (volumeSize freeSpace : Nat) (scanTime : String) (root : FsNode) :
    List XmlEvent :=
  output_xml_header ++
    scan_info_event volumePath volumeSize freeSpace scanTime ::
      (Scan.traverse_directory_to_xml opts rootDev root true rootName []).2 ++
    [.close "ScanInfo", .close "GrandPerspectiveScanDump"]

end Filesystem

namespace XmlOutput

/-- The events of `output_xml_header` in `src/xml_output.rs` (note: that
module declares `XML_VERSION` as `1.1`). -/
def output_xml_header : List XmlEvent :=
  [.decl "1.1" "UTF-8",
   .start "GrandPerspectiveScanDump" [("appVersion", "4"), ("formatVersion", "7")]]

end XmlOutput

/-- First `name` attribute of an attribute list. -/
def attrName (attrs : List (String × String)) : String :=
  match attrs.find? (fun p => p.1 == "name") with
  | some p => p.2
  | none => ""

/-- Nesting depth change of one event. -/
def ddelta : XmlEvent → Int
  | .start _ _ => 1
  | .close _ => -1
  | _ => 0

/-- Total nesting depth change of an event list. -/
def dsum (es : List XmlEvent) : Int := (es.map ddelta).sum

/-- Depth-one observation of one event: a self-closing `File` or an opening
`Folder` appearing at depth one, tagged `true` for files, with its `name`
attribute. -/
def childItem (d : Int) (e : XmlEvent) : List (Bool × String) :=
  match e with
  | .emptyElem tag attrs => if d = 1 ∧ tag = "File" then [(true, attrName attrs)] else []
  | .start tag attrs => if d = 1 ∧ tag = "Folder" then [(false, attrName attrs)] else []
  | _ => []

/-- The direct child elements readable off a flat event stream started at
depth `d`: `File` and `Folder` items observed at depth one, in stream
order. -/
def topChildren : Int → List XmlEvent → List (Bool × String)
  | _, [] => []
  | d, e :: es => childItem d e ++ topChildren (d + ddelta e) es

/-- Rewrite the `scanTime` attribute of a `ScanInfo` opening event to the
given value; every other event is unchanged. -/
def setScanTime (time : String) : XmlEvent → XmlEvent
  | .start tag attrs =>
    if tag = "ScanInfo" then
      .start tag (attrs.map fun p => if p.1 = "scanTime" then (p.1, time) else p)
    else .start tag attrs
  | e => e

/-- Rewrite the `scanTime` attribute throughout an event stream. -/
def updateScanTime (time : String) (es : List XmlEvent) : List XmlEvent :=
  es.map (setScanTime time)

/-- Number of self-closing `File` events in a stream. -/
def countFileEvts (es : List XmlEvent) : Nat :=
  es.countP fun e =>
    match e with
    | .emptyElem tag _ => tag == "File"
    | _ => false

mutual

/-- Canonical form of a tree: every directory's children recursively
canonicalized and sorted by name. Two trees describing the same on-disk
state through different operating-system listing orders have the same
canonical form. -/
def canonNode : FsNode → FsNode
  | .dir nm mok dev tCr tMo tAc lok ch =>
    .dir nm mok dev tCr tMo tAc lok (Scan.sortEntries (canonList ch))
  | e => e

/-- Canonical form of a list of children, elementwise. -/
def canonList : List FsNode → List FsNode
  | [] => []
  | e :: es => canonNode e :: canonList es

end

/-- Default options: apparent size off, mount crossing off, zero files
excluded, empty folders excluded. -/
def optsDefault : Options := ⟨false, false, false, false⟩

/-- Metadata fixture with equal logical and physical size. -/
def mkMeta (ino sz : Nat) : FileMeta := ⟨ino, sz, sz, "T", "T", "T"⟩

/-- The scenario tree of the spec: `root/(a.txt(10B), sub/(b.txt(0B)),
empty/)` on one device, all reads succeeding; a.txt occupies one 4096-byte
allocation unit. -/
def treeC3 : FsNode :=
  .dir "root" true 0 "T" "T" "T" true
    [ .file "a.txt" true ⟨1, 10, 4096, "T", "T", "T"⟩,
      .dir "sub" true 0 "T" "T" "T" true [.file "b.txt" true (mkMeta 2 0)],
      .dir "empty" true 0 "T" "T" "T" true [] ]

/-- Two directory entries whose inode identity is unavailable (both 0). -/
def treeC4 : FsNode :=
  .dir "root" true 0 "T" "T" "T" true
    [ .file "a" true (mkMeta 0 5), .file "b" true (mkMeta 0 7) ]

namespace Scan

/-- Unfolding equation: the second pass on an empty directory vector. -/
theorem traverse_entries_nil (opts : Options) (rootDev : Nat) (rootName : String)
    (v : List Nat) : traverse_entries opts rootDev rootName [] v = (v, []) := by
  simp [traverse_entries]

/-- Unfolding equation: the second pass on a non-empty directory vector. -/
theorem traverse_entries_cons (opts : Options) (rootDev : Nat) (rootName : String)
    (d : FsNode) (rest : List FsNode) (v : List Nat) :
    traverse_entries opts rootDev rootName (d :: rest) v =
      ((traverse_entries opts rootDev rootName rest
          (traverse_directory_to_xml opts rootDev d false rootName v).1).1,
       (traverse_directory_to_xml opts rootDev d false rootName v).2 ++
         (traverse_entries opts rootDev rootName rest
           (traverse_directory_to_xml opts rootDev d false rootName v).1).2) := by
  simp [traverse_entries]

/-- A node that is not a directory produces no output and leaves the inode
set unchanged. -/
theorem trav_not_dir (opts : Options) (rootDev : Nat) (node : FsNode)
    (isRoot : Bool) (rootName : String) (v : List Nat)
    (h : ∀ nm mok dev tCr tMo tAc lok ch,
      node ≠ FsNode.dir nm mok dev tCr tMo tAc lok ch) :
    traverse_directory_to_xml opts rootDev node isRoot rootName v = (v, []) := by
  cases node with
  | dir nm mok dev tCr tMo tAc lok ch => exact absurd rfl (h nm mok dev tCr tMo tAc lok ch)
  | file n mok m => simp [traverse_directory_to_xml]
  | symlink n => simp [traverse_directory_to_xml]
  | other n => simp [traverse_directory_to_xml]

/-- A directory whose own metadata is unreadable produces no output and
leaves the inode set unchanged. -/
theorem trav_meta_err (opts : Options) (rootDev : Nat)
    (nm : String) (dev : Nat) (tCr tMo tAc : String) (lok : Bool) (ch : List FsNode)
    (isRoot : Bool) (rootName : String) (v : List Nat) :
    traverse_directory_to_xml opts rootDev (.dir nm false dev tCr tMo tAc lok ch)
      isRoot rootName v = (v, []) := by
  simp [traverse_directory_to_xml]

/-- A directory on a foreign device, with mount crossing disabled, produces
no output and leaves the inode set unchanged. -/
theorem trav_mount_skip (opts : Options) (rootDev : Nat)
    (nm : String) (dev : Nat) (tCr tMo tAc : String) (lok : Bool) (ch : List FsNode)
    (isRoot : Bool) (rootName : String) (v : List Nat)
    (h1 : opts.cross_mount_points = false) (h2 : dev ≠ rootDev) :
    traverse_directory_to_xml opts rootDev (.dir nm true dev tCr tMo tAc lok ch)
      isRoot rootName v = (v, []) := by
  simp [traverse_directory_to_xml, h1, h2]

/-- A directory whose listing fails produces no output and leaves the inode
set unchanged (the Folder opening tag is only written later). -/
theorem trav_list_err (opts : Options) (rootDev : Nat)
    (nm : String) (dev : Nat) (tCr tMo tAc : String) (ch : List FsNode)
    (isRoot : Bool) (rootName : String) (v : List Nat) :
    traverse_directory_to_xml opts rootDev (.dir nm true dev tCr tMo tAc false ch)
      isRoot rootName v = (v, []) := by
  by_cases hdev : opts.cross_mount_points = false ∧ dev ≠ rootDev
  · simp [traverse_directory_to_xml, hdev]
  · simp [traverse_directory_to_xml, hdev]

/-- An empty directory with empty-folder inclusion off produces no output
and leaves the inode set unchanged. -/
theorem trav_empty_skip (opts : Options) (rootDev : Nat)
    (nm : String) (dev : Nat) (tCr tMo tAc : String) (ch : List FsNode)
    (isRoot : Bool) (rootName : String) (v : List Nat)
    (h1 : ch.isEmpty = true) (h2 : opts.include_empty_folders = false) :
    traverse_directory_to_xml opts rootDev (.dir nm true dev tCr tMo tAc true ch)
      isRoot rootName v = (v, []) := by
  by_cases hdev : opts.cross_mount_points = false ∧ dev ≠ rootDev
  · simp [traverse_directory_to_xml, hdev]
  · simp [traverse_directory_to_xml, hdev, h1, h2]

/-- Unfolding equation for the emitting case: Folder opening tag, the file
pass, the directory pass, the Folder closing tag. -/
theorem trav_emit (opts : Options) (rootDev : Nat)
    (nm : String) (dev : Nat) (tCr tMo tAc : String) (ch : List FsNode)
    (isRoot : Bool) (rootName : String) (v : List Nat)
    (hdev : opts.cross_mount_points = true ∨ dev = rootDev)
    (hne : ch.isEmpty = false ∨ opts.include_empty_folders = true) :
    traverse_directory_to_xml opts rootDev (.dir nm true dev tCr tMo tAc true ch)
      isRoot rootName v =
      ((traverse_entries opts rootDev rootName (dirChildren (sortEntries ch))
          (process_files opts (fileChildren (sortEntries ch)) v).1).1,
       folderStart (if isRoot then rootName else nm) tCr tMo tAc ::
         ((process_files opts (fileChildren (sortEntries ch)) v).2 ++
          (traverse_entries opts rootDev rootName (dirChildren (sortEntries ch))
            (process_files opts (fileChildren (sortEntries ch)) v).1).2) ++
         [XmlEvent.close "Folder"]) := by
  have hdev' : ¬(opts.cross_mount_points = false ∧ dev ≠ rootDev) := by
    rcases hdev with h | h <;> simp [h]
  have hne' : ¬(ch.isEmpty = true ∧ opts.include_empty_folders = false) := by
    rcases hne with h | h <;> simp [h]
  simp [traverse_directory_to_xml, hdev', hne']
  intro hch
  rcases hne with h' | h'
  · simp [hch] at h'
  · exact h'

/-- The result of processing one file entry: either suppressed with the set
unchanged (already-seen inode), or recorded and suppressed (zero size), or
recorded and emitted as a single File element. -/
theorem process_file_entry_cases (opts : Options) (n : String) (m : FileMeta)
    (v : List Nat) :
    (m.inode ∈ v ∧ process_file_entry opts n m v = (v, [])) ∨
    (m.inode ∉ v ∧ file_size m opts.apparent_size = 0 ∧
      opts.include_zero_files = false ∧
      process_file_entry opts n m v = (m.inode :: v, [])) ∨
    (m.inode ∉ v ∧
      ¬(file_size m opts.apparent_size = 0 ∧ opts.include_zero_files = false) ∧
      process_file_entry opts n m v =
        (m.inode :: v, [fileElem n (file_size m opts.apparent_size) m])) := by
  by_cases hv : m.inode ∈ v
  · exact Or.inl ⟨hv, by simp [process_file_entry, hv]⟩
  · by_cases hz : file_size m opts.apparent_size = 0 ∧ opts.include_zero_files = false
    · exact Or.inr (Or.inl ⟨hv, hz.1, hz.2, by simp [process_file_entry, hv, hz]⟩)
    · exact Or.inr (Or.inr ⟨hv, hz, by simp [process_file_entry, hv, hz]⟩)

/-- The visited set only grows, by consing newly seen inodes: the initial
set is a suffix of the final one, at the file-entry level. -/
theorem process_file_entry_suffix (opts : Options) (n : String) (m : FileMeta)
    (v : List Nat) : v.IsSuffix (process_file_entry opts n m v).1 := by
  rcases process_file_entry_cases opts n m v with ⟨_, h⟩ | ⟨_, _, _, h⟩ | ⟨_, _, h⟩
  · rw [h]
  · rw [h]
    exact List.suffix_cons _ _
  · rw [h]
    exact List.suffix_cons _ _

/-- The visited set only grows across the file pass. -/
theorem process_files_suffix (opts : Options) (fs : List (String × FileMeta))
    (v : List Nat) : v.IsSuffix (process_files opts fs v).1 := by
  induction fs generalizing v with
  | nil => simp [process_files]
  | cons p rest ih =>
    obtain ⟨n, m⟩ := p
    simp only [process_files]
    exact (process_file_entry_suffix opts n m v).trans (ih _)

end Scan

/-- Depth-change of a singleton event list. -/
theorem dsum_cons (e : XmlEvent) (es : List XmlEvent) :
    dsum (e :: es) = ddelta e + dsum es := by
  simp [dsum]

/-- Depth-change distributes over concatenation. -/
theorem dsum_append (xs ys : List XmlEvent) : dsum (xs ++ ys) = dsum xs + dsum ys := by
  simp [dsum]

/-- Depth-one observation distributes over concatenation, shifting the
starting depth by the depth-change of the first part. -/
theorem topChildren_append : ∀ (xs ys : List XmlEvent) (d : Int),
    topChildren d (xs ++ ys) = topChildren d xs ++ topChildren (d + dsum xs) ys := by
  intro xs
  induction xs with
  | nil => intro ys d; simp [topChildren, dsum]
  | cons e es ih =>
    intro ys d
    simp only [List.cons_append, topChildren, List.append_eq, ih, dsum_cons,
      List.append_assoc, Int.add_assoc]

namespace Scan

/-- The output of the file pass is a list of `File` elements whose names
come from the processed entries, in order. -/
theorem process_files_shape (opts : Options) :
    ∀ (fs : List (String × FileMeta)) (v : List Nat),
    ∃ ps : List (String × Nat × FileMeta),
      (process_files opts fs v).2 = ps.map (fun p => fileElem p.1 p.2.1 p.2.2) ∧
      List.Sublist (ps.map Prod.fst) (fs.map Prod.fst) := by
  intro fs
  induction fs with
  | nil => intro v; exact ⟨[], by simp [process_files], by simp⟩
  | cons p rest ih =>
    intro v
    obtain ⟨n, m⟩ := p
    rcases process_file_entry_cases opts n m v with ⟨_, h⟩ | ⟨_, _, _, h⟩ | ⟨_, _, h⟩
    · obtain ⟨ps, hps, hsub⟩ := ih v
      refine ⟨ps, ?_, ?_⟩
      · simp [process_files, h, hps]
      · simpa using hsub.trans (List.sublist_cons_self _ _)
    · obtain ⟨ps, hps, hsub⟩ := ih (m.inode :: v)
      refine ⟨ps, ?_, ?_⟩
      · simp [process_files, h, hps]
      · simpa using hsub.trans (List.sublist_cons_self _ _)
    · obtain ⟨ps, hps, hsub⟩ := ih (m.inode :: v)
      refine ⟨(n, file_size m opts.apparent_size, m) :: ps, ?_, ?_⟩
      · simp [process_files, h, hps]
      · simpa using hsub.cons₂ n

end Scan

/-- A `File` element contributes exactly its name tag at depth one. -/
theorem childItem_fileElem (d : Int) (n : String) (sz : Nat) (m : FileMeta) :
    childItem d (fileElem n sz m) = if d = 1 then [(true, qxEscape n)] else [] := by
  simp [childItem, fileElem, attrName]

/-- A `File` element is depth-neutral. -/
theorem ddelta_fileElem (n : String) (sz : Nat) (m : FileMeta) :
    ddelta (fileElem n sz m) = 0 := rfl

/-- Observation of a pure file-element list: its items at depth one, nothing
elsewhere. -/
theorem topChildren_fileElems :
    ∀ (ps : List (String × Nat × FileMeta)) (d : Int),
    topChildren d (ps.map (fun p => fileElem p.1 p.2.1 p.2.2)) =
      if d = 1 then ps.map (fun p => (true, qxEscape p.1)) else [] := by
  intro ps
  induction ps with
  | nil => intro d; simp [topChildren]
  | cons p rest ih =>
    intro d
    simp only [List.map_cons, topChildren, childItem_fileElem, ddelta_fileElem,
      Int.add_zero, ih]
    by_cases hd : d = 1 <;> simp [hd]

/-- A file-element list is depth-neutral. -/
theorem dsum_fileElems (ps : List (String × Nat × FileMeta)) :
    dsum (ps.map (fun p => fileElem p.1 p.2.1 p.2.2)) = 0 := by
  induction ps with
  | nil => simp [dsum]
  | cons p rest ih => simp [List.map_cons, dsum_cons, ih, ddelta_fileElem]

/-- Rewriting the scan time does not touch file elements. -/
theorem updateScanTime_fileElems (time : String) (ps : List (String × Nat × FileMeta)) :
    updateScanTime time (ps.map (fun p => fileElem p.1 p.2.1 p.2.2)) =
      ps.map (fun p => fileElem p.1 p.2.1 p.2.2) := by
  induction ps with
  | nil => simp [updateScanTime]
  | cons p rest ih =>
    simp only [List.map_cons, updateScanTime] at ih ⊢
    simp [setScanTime, fileElem, ih]

namespace Scan

/-- Combined stream invariants of the walker, by the mutual induction that
follows the recursion: the initial visited set is a suffix of the final one;
the emitted stream is depth-balanced; it contains no `ScanInfo` opening tag
(so rewriting the scan time fixes it); and it shows nothing at observation
depth two or more. -/
theorem trav_invariants (opts : Options) (rootDev : Nat) :
    ∀ (node : FsNode) (isRoot : Bool) (rootName : String) (v : List Nat),
      v.IsSuffix (traverse_directory_to_xml opts rootDev node isRoot rootName v).1 ∧
      dsum (traverse_directory_to_xml opts rootDev node isRoot rootName v).2 = 0 ∧
      (∀ time, updateScanTime time
          (traverse_directory_to_xml opts rootDev node isRoot rootName v).2 =
        (traverse_directory_to_xml opts rootDev node isRoot rootName v).2) ∧
      (∀ d : Int, 2 ≤ d → topChildren d
          (traverse_directory_to_xml opts rootDev node isRoot rootName v).2 = []) := by
  intro node isRoot rootName v
  refine traverse_directory_to_xml.induct opts rootDev
    (fun node isRoot rootName v =>
      v.IsSuffix (traverse_directory_to_xml opts rootDev node isRoot rootName v).1 ∧
      dsum (traverse_directory_to_xml opts rootDev node isRoot rootName v).2 = 0 ∧
      (∀ time, updateScanTime time
          (traverse_directory_to_xml opts rootDev node isRoot rootName v).2 =
        (traverse_directory_to_xml opts rootDev node isRoot rootName v).2) ∧
      (∀ d : Int, 2 ≤ d → topChildren d
          (traverse_directory_to_xml opts rootDev node isRoot rootName v).2 = []))
    (fun rootName ds v =>
      v.IsSuffix (traverse_entries opts rootDev rootName ds v).1 ∧
      dsum (traverse_entries opts rootDev rootName ds v).2 = 0 ∧
      (∀ time, updateScanTime time (traverse_entries opts rootDev rootName ds v).2 =
        (traverse_entries opts rootDev rootName ds v).2) ∧
      (∀ d : Int, 2 ≤ d →
        topChildren d (traverse_entries opts rootDev rootName ds v).2 = []))
    ?_ ?_ ?_ ?_ ?_ ?_ ?_ ?_ node isRoot rootName v
  · intro isRoot rootName v nm dev tCr tMo tAc lok ch
    rw [trav_meta_err]
    exact ⟨List.suffix_rfl, rfl, fun _ => rfl, fun _ _ => rfl⟩
  · intro isRoot rootName v nm mok dev tCr tMo tAc lok ch hmok hcross
    cases mok with
    | false => exact absurd rfl hmok
    | true =>
      rw [trav_mount_skip opts rootDev nm dev tCr tMo tAc lok ch isRoot rootName v
        hcross.1 hcross.2]
      exact ⟨List.suffix_rfl, rfl, fun _ => rfl, fun _ _ => rfl⟩
  · intro isRoot rootName v nm mok dev tCr tMo tAc ch hmok hcross
    cases mok with
    | false => exact absurd rfl hmok
    | true =>
      rw [trav_list_err]
      exact ⟨List.suffix_rfl, rfl, fun _ => rfl, fun _ _ => rfl⟩
  · intro isRoot rootName v nm mok dev tCr tMo tAc lok ch hmok hcross hlok hempty
    cases mok with
    | false => exact absurd rfl hmok
    | true =>
      cases lok with
      | false => exact absurd rfl hlok
      | true =>
        rw [trav_empty_skip opts rootDev nm dev tCr tMo tAc ch isRoot rootName v
          hempty.1 hempty.2]
        exact ⟨List.suffix_rfl, rfl, fun _ => rfl, fun _ _ => rfl⟩
  · intro isRoot rootName v nm mok dev tCr tMo tAc lok ch hmok hcross hlok hempty
    intro sorted r1 ih
    have hs : sorted = sortEntries ch := rfl
    have hr1 : r1 = process_files opts (fileChildren (sortEntries ch)) v := by rw [← hs]
    rw [hs, hr1] at ih
    cases mok with
    | false => exact absurd rfl hmok
    | true =>
    cases lok with
    | false => exact absurd rfl hlok
    | true =>
    have hdev : opts.cross_mount_points = true ∨ dev = rootDev := by
      by_cases hc : opts.cross_mount_points = true
      · exact Or.inl hc
      · refine Or.inr ?_
        by_contra hd
        exact hcross ⟨by revert hc; cases opts.cross_mount_points <;> simp, hd⟩
    have hne : ch.isEmpty = false ∨ opts.include_empty_folders = true := by
      by_cases he : ch.isEmpty = true
      · refine Or.inr ?_
        by_contra hi
        exact hempty ⟨he, by revert hi; cases opts.include_empty_folders <;> simp⟩
      · exact Or.inl (by revert he; cases ch.isEmpty <;> simp)
    obtain ⟨ihs, ihd, ihu, iht⟩ := ih
    rw [trav_emit opts rootDev nm dev tCr tMo tAc ch isRoot rootName v hdev hne]
    obtain ⟨ps, hps, -⟩ :=
      process_files_shape opts (fileChildren (sortEntries ch)) v
    refine ⟨?_, ?_, ?_, ?_⟩
    · exact (process_files_suffix opts _ v).trans ihs
    · simp only [dsum_cons, dsum_append, hps, dsum_fileElems, ihd]
      rfl
    · intro time
      simp only [updateScanTime, List.map_cons, List.map_append, List.map_nil] at ihu ⊢
      rw [hps]
      have h2 := updateScanTime_fileElems time ps
      simp only [updateScanTime] at h2
      rw [show setScanTime time (folderStart (if isRoot then rootName else nm) tCr tMo tAc) =
          folderStart (if isRoot then rootName else nm) tCr tMo tAc from by
        simp [setScanTime, folderStart]]
      rw [h2, ihu time]
      simp [setScanTime]
    · intro d hd
      simp only [topChildren, List.append_eq, List.append_assoc]
      have hδ : ddelta (folderStart (if isRoot then rootName else nm) tCr tMo tAc) = 1 := rfl
      have h1 : childItem d (folderStart (if isRoot then rootName else nm) tCr tMo tAc) = [] := by
        simp only [folderStart, childItem]
        rw [if_neg]
        rintro ⟨h, -⟩
        omega
      have h2 : topChildren (d + 1)
          (process_files opts (fileChildren (sortEntries ch)) v).2 = [] := by
        rw [hps, topChildren_fileElems, if_neg]
        omega
      have h3 : dsum (process_files opts (fileChildren (sortEntries ch)) v).2 = 0 := by
        rw [hps, dsum_fileElems]
      have h4 := iht (d + 1) (by omega)
      rw [topChildren_append, topChildren_append, h1, hδ, h2, h3, ihd]
      simp only [Int.add_zero]
      rw [h4]
      simp [topChildren, childItem]
  · intro node isRoot rootName v h
    rw [trav_not_dir opts rootDev node isRoot rootName v h]
    exact ⟨List.suffix_rfl, rfl, fun _ => rfl, fun _ _ => rfl⟩
  · intro rootName v
    rw [traverse_entries_nil]
    exact ⟨List.suffix_rfl, rfl, fun _ => rfl, fun _ _ => rfl⟩
  · intro rootName d rest v r ih1 ih2
    have hr : r = traverse_directory_to_xml opts rootDev d false rootName v := rfl
    rw [hr] at ih2
    obtain ⟨ihs1, ihd1, ihu1, iht1⟩ := ih1
    obtain ⟨ihs2, ihd2, ihu2, iht2⟩ := ih2
    rw [traverse_entries_cons]
    refine ⟨?_, ?_, ?_, ?_⟩
    · exact ihs1.trans ihs2
    · simp only [dsum_append, ihd1, ihd2]
      rfl
    · intro time
      simp only [updateScanTime, List.map_append] at ihu1 ihu2 ⊢
      rw [ihu1 time, ihu2 time]
    · intro d' hd'
      rw [topChildren_append, iht1 d' hd', ihd1]
      simp only [Int.add_zero, List.nil_append]
      exact iht2 d' hd'

/-- The initial visited set is a suffix of the final one. -/
theorem trav_suffix (opts : Options) (rootDev : Nat) (node : FsNode) (isRoot : Bool)
    (rootName : String) (v : List Nat) :
    v.IsSuffix (traverse_directory_to_xml opts rootDev node isRoot rootName v).1 :=
  (trav_invariants opts rootDev node isRoot rootName v).1

/-- The walker's stream is depth-balanced. -/
theorem trav_dsum (opts : Options) (rootDev : Nat) (node : FsNode) (isRoot : Bool)
    (rootName : String) (v : List Nat) :
    dsum (traverse_directory_to_xml opts rootDev node isRoot rootName v).2 = 0 :=
  (trav_invariants opts rootDev node isRoot rootName v).2.1

/-- Rewriting the scan time fixes the walker's stream. -/
theorem trav_update (opts : Options) (rootDev : Nat) (node : FsNode) (isRoot : Bool)
    (rootName : String) (v : List Nat) (time : String) :
    updateScanTime time (traverse_directory_to_xml opts rootDev node isRoot rootName v).2 =
      (traverse_directory_to_xml opts rootDev node isRoot rootName v).2 :=
  (trav_invariants opts rootDev node isRoot rootName v).2.2.1 time

/-- The walker's stream shows nothing at observation depth two or more. -/
theorem trav_top_ge2 (opts : Options) (rootDev : Nat) (node : FsNode) (isRoot : Bool)
    (rootName : String) (v : List Nat) (d : Int) (hd : 2 ≤ d) :
    topChildren d (traverse_directory_to_xml opts rootDev node isRoot rootName v).2 = [] :=
  (trav_invariants opts rootDev node isRoot rootName v).2.2.2 d hd

/-- The second pass's stream is depth-balanced. -/
theorem entries_dsum (opts : Options) (rootDev : Nat) (rootName : String) :
    ∀ (ds : List FsNode) (v : List Nat),
      dsum (traverse_entries opts rootDev rootName ds v).2 = 0 := by
  intro ds
  induction ds with
  | nil => intro v; rw [traverse_entries_nil]; rfl
  | cons d rest ih =>
    intro v
    rw [traverse_entries_cons]
    simp only [dsum_append, trav_dsum, ih]
    rfl

/-- The second pass's stream shows nothing at observation depth two or
more. -/
theorem entries_top_ge2 (opts : Options) (rootDev : Nat) (rootName : String) :
    ∀ (ds : List FsNode) (v : List Nat) (d : Int), 2 ≤ d →
      topChildren d (traverse_entries opts rootDev rootName ds v).2 = [] := by
  intro ds
  induction ds with
  | nil => intro v d hd; rw [traverse_entries_nil]; rfl
  | cons x rest ih =>
    intro v d hd
    rw [traverse_entries_cons, topChildren_append, trav_top_ge2 _ _ _ _ _ _ _ hd,
      trav_dsum]
    simp only [Int.add_zero, List.nil_append]
    exact ih _ d hd

/-- What the walker shows at observation depth one: exactly one `Folder`
item carrying its display name when the node qualifies for emission, nothing
otherwise. -/
theorem trav_top1 (opts : Options) (rootDev : Nat) (node : FsNode) (isRoot : Bool)
    (rootName : String) (v : List Nat) :
    topChildren 1 (traverse_directory_to_xml opts rootDev node isRoot rootName v).2 =
      if emitsFolder opts rootDev node then
        [(false, qxEscape (if isRoot then rootName else entryName node))]
      else [] := by
  cases node with
  | file n mok m => simp [traverse_directory_to_xml, emitsFolder, topChildren]
  | symlink n => simp [traverse_directory_to_xml, emitsFolder, topChildren]
  | other n => simp [traverse_directory_to_xml, emitsFolder, topChildren]
  | dir nm mok dev tCr tMo tAc lok ch =>
    cases mok with
    | false => simp [trav_meta_err, emitsFolder, topChildren]
    | true =>
      by_cases hdev : opts.cross_mount_points = false ∧ dev ≠ rootDev
      · rw [trav_mount_skip opts rootDev nm dev tCr tMo tAc lok ch isRoot rootName v
          hdev.1 hdev.2]
        have : (dev == rootDev) = false := by
          simp [hdev.2]
        simp [emitsFolder, topChildren, hdev.1, this]
      · cases lok with
        | false => simp [trav_list_err, emitsFolder, topChildren]
        | true =>
          have hdev' : opts.cross_mount_points = true ∨ dev = rootDev := by
            by_cases hc : opts.cross_mount_points = true
            · exact Or.inl hc
            · refine Or.inr ?_
              by_contra hd
              exact hdev ⟨by revert hc; cases opts.cross_mount_points <;> simp, hd⟩
          by_cases hemp : ch.isEmpty = true ∧ opts.include_empty_folders = false
          · rw [trav_empty_skip opts rootDev nm dev tCr tMo tAc ch isRoot rootName v
              hemp.1 hemp.2]
            simp [emitsFolder, topChildren, hemp.1, hemp.2]
          · have hne : ch.isEmpty = false ∨ opts.include_empty_folders = true := by
              by_cases he : ch.isEmpty = true
              · refine Or.inr ?_
                by_contra hi
                exact hemp ⟨he, by revert hi; cases opts.include_empty_folders <;> simp⟩
              · exact Or.inl (by revert he; cases ch.isEmpty <;> simp)
            rw [trav_emit opts rootDev nm dev tCr tMo tAc ch isRoot rootName v hdev' hne]
            have hemit : emitsFolder opts rootDev (FsNode.dir nm true dev tCr tMo tAc true ch) = true := by
              simp only [emitsFolder]
              rcases hdev' with h | h <;> rcases hne with h2 | h2 <;> simp [h, h2]
            rw [hemit]
            obtain ⟨ps, hps, -⟩ :=
              process_files_shape opts (fileChildren (sortEntries ch)) v
            simp only [topChildren, List.append_eq, List.append_assoc]
            rw [topChildren_append, topChildren_append]
            have hci : childItem 1 (folderStart (if isRoot then rootName else nm) tCr tMo tAc) =
                [(false, qxEscape (if isRoot then rootName else nm))] := by
              simp [childItem, folderStart, attrName]
            have hδ : ddelta (folderStart (if isRoot then rootName else nm) tCr tMo tAc) = 1 := rfl
            have h2 : topChildren (1 + 1)
                (process_files opts (fileChildren (sortEntries ch)) v).2 = [] := by
              rw [hps, topChildren_fileElems, if_neg]
              omega
            have h3 : dsum (process_files opts (fileChildren (sortEntries ch)) v).2 = 0 := by
              rw [hps, dsum_fileElems]
            rw [hδ, hci, h2, h3]
            simp only [Int.add_zero, List.nil_append]
            rw [entries_top_ge2 opts rootDev rootName _ _ _ (by omega)]
            simp [topChildren, childItem, entryName]

/-- What the second pass shows at observation depth one: one `Folder` item
per emitted subdirectory, named by the subdirectory, in pass order. -/
theorem entries_top1 (opts : Options) (rootDev : Nat) (rootName : String) :
    ∀ (ds : List FsNode) (v : List Nat),
    ∃ dn : List String,
      topChildren 1 (traverse_entries opts rootDev rootName ds v).2 =
        dn.map (fun s => (false, qxEscape s)) ∧
      List.Sublist dn (ds.map entryName) := by
  intro ds
  induction ds with
  | nil =>
    intro v
    exact ⟨[], by rw [traverse_entries_nil]; rfl, by simp⟩
  | cons x rest ih =>
    intro v
    obtain ⟨dn, hdn, hsub⟩ := ih (traverse_directory_to_xml opts rootDev x false rootName v).1
    rw [traverse_entries_cons]
    by_cases hx : emitsFolder opts rootDev x = true
    · refine ⟨entryName x :: dn, ?_, ?_⟩
      · rw [topChildren_append, trav_dsum, trav_top1]
        simp only [hx, if_true, Int.add_zero, hdn]
        simp
      · simpa using hsub.cons₂ (entryName x)
    · refine ⟨dn, ?_, ?_⟩
      · rw [topChildren_append, trav_dsum, trav_top1]
        simp only [Bool.not_eq_true] at hx
        simp only [hx, if_false, Int.add_zero, hdn]
        simp
      · simpa using hsub.trans (List.sublist_cons_self _ _)

/-- The sorted entry list is sorted under the walker's comparator, viewed on
names. -/
theorem sortEntries_names_sorted (l : List FsNode) :
    List.Pairwise (fun a b : String => strLe a b = true)
      ((sortEntries l).map entryName) := by
  have h : List.Pairwise entryLe (sortEntries l) := List.sorted_insertionSort entryLe l
  exact h.map entryName (fun a b hab => hab)

/-- Sorting permutes the entries. -/
theorem sortEntries_perm (l : List FsNode) : (sortEntries l).Perm l :=
  List.perm_insertionSort _ _

/-- Distinct sibling names survive sorting. -/
theorem sortEntries_names_nodup {l : List FsNode}
    (h : (l.map entryName).Nodup) : ((sortEntries l).map entryName).Nodup :=
  ((sortEntries_perm l).map entryName).nodup_iff.mpr h

/-- The file pass sees a name sublist of the classified entries. -/
theorem fileChildren_names_sublist (l : List FsNode) :
    List.Sublist ((fileChildren l).map Prod.fst) (l.map entryName) := by
  unfold fileChildren
  rw [List.map_map]
  have h : (Prod.fst ∘ fileKey) = entryName := funext fun e => by cases e <;> rfl
  rw [h]
  exact (List.filter_sublist l).map entryName

/-- The directory pass sees a name sublist of the classified entries. -/
theorem dirChildren_names_sublist (l : List FsNode) :
    List.Sublist ((dirChildren l).map entryName) (l.map entryName) :=
  (List.filter_sublist l).map entryName

end Scan

/-- A weak inequality between distinct strings is strict. -/
theorem strLt_of_le_of_ne {a b : String} (h1 : strLe a b = true) (h2 : a ≠ b) :
    strLt a b = true := by
  cases hab : strLt a b with
  | false =>
    exfalso
    exact h2 (strLt_conn hab (by simpa [strLe, Bool.not_eq_true'] using h1))
  | true => rfl

/-- A weakly sorted list of pairwise-distinct strings is strictly sorted. -/
theorem names_pairwise_lt {ns : List String}
    (h1 : List.Pairwise (fun a b : String => strLe a b = true) ns)
    (h2 : ns.Nodup) : List.Pairwise (fun a b : String => strLt a b = true) ns :=
  (h1.and h2).imp fun h => strLt_of_le_of_ne h.1 h.2

/-- C2: at every directory level of every scan, the walker's direct child
elements are all the qualifying File elements first, followed by all the
Folder elements, and within each group the names appear in strictly
increasing lexicographic order (strictness given the filesystem invariant
that sibling names are distinct). -/
theorem sibling_order_files_before_folders (opts : Options) (rootDev : Nat)
    (node : FsNode) (isRoot : Bool) (rootName : String) (v : List Nat)
    (hnd : ((childrenOf node).map entryName).Nodup) :
    ∃ fnames dnames : List String,
      topChildren 0
          (Scan.traverse_directory_to_xml opts rootDev node isRoot rootName v).2 =
        fnames.map (fun s => (true, qxEscape s)) ++
          dnames.map (fun s => (false, qxEscape s)) ∧
      fnames.Pairwise (fun a b => strLt a b = true) ∧
      dnames.Pairwise (fun a b => strLt a b = true) := by
  cases node with
  | file n mok m =>
    exact ⟨[], [], by simp [Scan.traverse_directory_to_xml, topChildren], .nil, .nil⟩
  | symlink n =>
    exact ⟨[], [], by simp [Scan.traverse_directory_to_xml, topChildren], .nil, .nil⟩
  | other n =>
    exact ⟨[], [], by simp [Scan.traverse_directory_to_xml, topChildren], .nil, .nil⟩
  | dir nm mok dev tCr tMo tAc lok ch =>
    have hndc : (ch.map entryName).Nodup := hnd
    cases mok with
    | false =>
      exact ⟨[], [], by rw [Scan.trav_meta_err]; simp [topChildren], .nil, .nil⟩
    | true =>
      by_cases hdev : opts.cross_mount_points = false ∧ dev ≠ rootDev
      · exact ⟨[], [], by
          rw [Scan.trav_mount_skip opts rootDev nm dev tCr tMo tAc lok ch isRoot
            rootName v hdev.1 hdev.2]
          simp [topChildren], .nil, .nil⟩
      · cases lok with
        | false =>
          exact ⟨[], [], by rw [Scan.trav_list_err]; simp [topChildren], .nil, .nil⟩
        | true =>
          by_cases hemp : ch.isEmpty = true ∧ opts.include_empty_folders = false
          · exact ⟨[], [], by
              rw [Scan.trav_empty_skip opts rootDev nm dev tCr tMo tAc ch isRoot
                rootName v hemp.1 hemp.2]
              simp [topChildren], .nil, .nil⟩
          · have hdev' : opts.cross_mount_points = true ∨ dev = rootDev := by
              by_cases hc : opts.cross_mount_points = true
              · exact Or.inl hc
              · refine Or.inr ?_
                by_contra hd
                exact hdev ⟨by revert hc; cases opts.cross_mount_points <;> simp, hd⟩
            have hne : ch.isEmpty = false ∨ opts.include_empty_folders = true := by
              by_cases he : ch.isEmpty = true
              · refine Or.inr ?_
                by_contra hi
                exact hemp ⟨he, by revert hi; cases opts.include_empty_folders <;> simp⟩
              · exact Or.inl (by revert he; cases ch.isEmpty <;> simp)
            obtain ⟨ps, hps, hsubf⟩ :=
              Scan.process_files_shape opts (Scan.fileChildren (Scan.sortEntries ch)) v
            obtain ⟨dn, hdn, hsubd⟩ :=
              Scan.entries_top1 opts rootDev rootName (Scan.dirChildren (Scan.sortEntries ch))
                (Scan.process_files opts (Scan.fileChildren (Scan.sortEntries ch)) v).1
            have hstrict := names_pairwise_lt (Scan.sortEntries_names_sorted ch)
              (Scan.sortEntries_names_nodup hndc)
            refine ⟨ps.map Prod.fst, dn, ?_, ?_, ?_⟩
            · rw [Scan.trav_emit opts rootDev nm dev tCr tMo tAc ch isRoot rootName v
                hdev' hne]
              simp only [topChildren, List.append_eq, List.append_assoc]
              rw [topChildren_append, topChildren_append]
              have hc0 : childItem 0
                  (folderStart (if isRoot then rootName else nm) tCr tMo tAc) = [] := by
                simp [childItem, folderStart]
              have hδ : ddelta
                  (folderStart (if isRoot then rootName else nm) tCr tMo tAc) = 1 := rfl
              have hf : topChildren (0 + 1)
                  (Scan.process_files opts (Scan.fileChildren (Scan.sortEntries ch)) v).2 =
                  ps.map (fun p => (true, qxEscape p.1)) := by
                rw [hps, topChildren_fileElems, if_pos]
                omega
              have hds : dsum
                  (Scan.process_files opts (Scan.fileChildren (Scan.sortEntries ch)) v).2 = 0 := by
                rw [hps, dsum_fileElems]
              rw [hc0, hδ, hf, hds]
              have h01 : ((0 : Int) + 1 + 0) = 1 := by omega
              rw [h01, hdn]
              have hclose : topChildren (1 + dsum (Scan.traverse_entries opts rootDev rootName
                  (Scan.dirChildren (Scan.sortEntries ch))
                  (Scan.process_files opts (Scan.fileChildren (Scan.sortEntries ch)) v).1).2)
                  [XmlEvent.close "Folder"] = [] := by
                simp [topChildren, childItem]
              rw [hclose]
              simp [List.map_map, Function.comp]
            · exact List.Pairwise.sublist
                (hsubf.trans (Scan.fileChildren_names_sublist (Scan.sortEntries ch))) hstrict
            · exact List.Pairwise.sublist
                (hsubd.trans (Scan.dirChildren_names_sublist (Scan.sortEntries ch))) hstrict

/-- Witness for the sibling-ordering theorem at the concrete scenario tree,
discharging the distinct-names hypothesis. -/
theorem sibling_order_files_before_folders_witness :
    ((childrenOf treeC3).map entryName).Nodup ∧
    ∃ fnames dnames : List String,
      topChildren 0
          (Scan.traverse_directory_to_xml optsDefault 0 treeC3 true "root" []).2 =
        fnames.map (fun s => (true, qxEscape s)) ++
          dnames.map (fun s => (false, qxEscape s)) ∧
      fnames.Pairwise (fun a b => strLt a b = true) ∧
      dnames.Pairwise (fun a b => strLt a b = true) :=
  ⟨by decide, sibling_order_files_before_folders optsDefault 0 treeC3 true "root" []
    (by decide)⟩

/-- Canonicalization preserves entry names. -/
theorem entryName_canon (e : FsNode) : entryName (canonNode e) = entryName e := by
  cases e <;> rfl

/-- The elementwise canonicalization is a map. -/
theorem canonList_eq_map : ∀ l : List FsNode, canonList l = l.map canonNode := by
  intro l
  induction l with
  | nil => rfl
  | cons e es ih => simp [canonList, ih]

/-- Canonicalization preserves the file classification test. -/
theorem isOkFile_canon (e : FsNode) : isOkFile (canonNode e) = isOkFile e := by
  cases e <;> rfl

/-- Canonicalization preserves the directory classification test. -/
theorem isOkDir_canon (e : FsNode) : isOkDir (canonNode e) = isOkDir e := by
  cases e <;> rfl

/-- Canonicalization commutes with ordered insertion, since the comparator
only reads names. -/
theorem orderedInsert_canon (a : FsNode) :
    ∀ l : List FsNode, (List.orderedInsert entryLe a l).map canonNode =
      List.orderedInsert entryLe (canonNode a) (l.map canonNode) := by
  intro l
  induction l with
  | nil => rfl
  | cons x t ih =>
    have hiff : entryLe (canonNode a) (canonNode x) ↔ entryLe a x := by
      simp [entryLe, entryName_canon]
    by_cases h : entryLe a x
    · simp [List.orderedInsert, h, hiff.mpr h]
    · have hnc : ¬ entryLe (canonNode a) (canonNode x) := fun hc => h (hiff.mp hc)
      simp [List.orderedInsert, h, hnc, ih]

/-- Canonicalization commutes with the walker's sort. -/
theorem sortEntries_map_canon : ∀ l : List FsNode,
    Scan.sortEntries (l.map canonNode) = (Scan.sortEntries l).map canonNode := by
  intro l
  induction l with
  | nil => rfl
  | cons e es ih =>
    simp only [List.map_cons, Scan.sortEntries, List.insertionSort] at ih ⊢
    rw [ih, orderedInsert_canon]

/-- Sorting an already sorted entry list is the identity. -/
theorem sortEntries_idem (l : List FsNode) :
    Scan.sortEntries (Scan.sortEntries l) = Scan.sortEntries l :=
  List.Sorted.insertionSort_eq (List.sorted_insertionSort entryLe l)

/-- Canonicalization does not change the classified file entries. -/
theorem fileChildren_map_canon (l : List FsNode) :
    Scan.fileChildren (l.map canonNode) = Scan.fileChildren l := by
  unfold Scan.fileChildren
  rw [List.filter_map]
  have h1 : (isOkFile ∘ canonNode) = isOkFile := funext isOkFile_canon
  rw [h1, List.map_map]
  refine List.map_congr_left ?_
  intro e he
  have hok : isOkFile e = true := (List.mem_filter.mp he).2
  cases e with
  | file n mok m => rfl
  | dir nm mok dev tCr tMo tAc lok ch => simp [isOkFile] at hok
  | symlink n => simp [isOkFile] at hok
  | other n => simp [isOkFile] at hok

/-- Canonicalization maps the classified directory entries elementwise. -/
theorem dirChildren_map_canon (l : List FsNode) :
    Scan.dirChildren (l.map canonNode) = (Scan.dirChildren l).map canonNode := by
  unfold Scan.dirChildren
  rw [List.filter_map]
  have h1 : (isOkDir ∘ canonNode) = isOkDir := funext isOkDir_canon
  rw [h1]

/-- Canonicalization preserves emptiness of a child list after sorting. -/
theorem isEmpty_sort_canon (ch : List FsNode) :
    (Scan.sortEntries (canonList ch)).isEmpty = ch.isEmpty := by
  rcases ch with _ | ⟨e, es⟩
  · rfl
  · have hlen : (Scan.sortEntries (canonList (e :: es))).length = (e :: es).length := by
      rw [(Scan.sortEntries_perm (canonList (e :: es))).length_eq, canonList_eq_map,
        List.length_map]
    rcases hs : Scan.sortEntries (canonList (e :: es)) with _ | ⟨x, xs⟩
    · rw [hs] at hlen
      simp at hlen
    · rfl

/-- The walker's result only depends on the canonical form of the tree: the
operating system's listing order is irrelevant. -/
theorem trav_canon (opts : Options) (rootDev : Nat) :
    ∀ (node : FsNode) (isRoot : Bool) (rootName : String) (v : List Nat),
      Scan.traverse_directory_to_xml opts rootDev (canonNode node) isRoot rootName v =
        Scan.traverse_directory_to_xml opts rootDev node isRoot rootName v := by
  intro node isRoot rootName v
  refine Scan.traverse_directory_to_xml.induct opts rootDev
    (fun node isRoot rootName v =>
      Scan.traverse_directory_to_xml opts rootDev (canonNode node) isRoot rootName v =
        Scan.traverse_directory_to_xml opts rootDev node isRoot rootName v)
    (fun rootName ds v =>
      Scan.traverse_entries opts rootDev rootName (canonList ds) v =
        Scan.traverse_entries opts rootDev rootName ds v)
    ?_ ?_ ?_ ?_ ?_ ?_ ?_ ?_ node isRoot rootName v
  · intro isRoot rootName v nm dev tCr tMo tAc lok ch
    simp only [canonNode]
    rw [Scan.trav_meta_err, Scan.trav_meta_err]
  · intro isRoot rootName v nm mok dev tCr tMo tAc lok ch hmok hcross
    cases mok with
    | false => exact absurd rfl hmok
    | true =>
      simp only [canonNode]
      rw [Scan.trav_mount_skip opts rootDev nm dev tCr tMo tAc lok
          (Scan.sortEntries (canonList ch)) isRoot rootName v hcross.1 hcross.2,
        Scan.trav_mount_skip opts rootDev nm dev tCr tMo tAc lok ch isRoot rootName v
          hcross.1 hcross.2]
  · intro isRoot rootName v nm mok dev tCr tMo tAc ch hmok hcross
    cases mok with
    | false => exact absurd rfl hmok
    | true =>
      simp only [canonNode]
      rw [Scan.trav_list_err, Scan.trav_list_err]
  · intro isRoot rootName v nm mok dev tCr tMo tAc lok ch hmok hcross hlok hempty
    cases mok with
    | false => exact absurd rfl hmok
    | true =>
      cases lok with
      | false => exact absurd rfl hlok
      | true =>
        simp only [canonNode]
        rw [Scan.trav_empty_skip opts rootDev nm dev tCr tMo tAc
            (Scan.sortEntries (canonList ch)) isRoot rootName v
            (by rw [isEmpty_sort_canon]; exact hempty.1) hempty.2,
          Scan.trav_empty_skip opts rootDev nm dev tCr tMo tAc ch isRoot rootName v
            hempty.1 hempty.2]
  · intro isRoot rootName v nm mok dev tCr tMo tAc lok ch hmok hcross hlok hempty
    intro sorted r1 ih
    have hs : sorted = Scan.sortEntries ch := rfl
    have hr1 : r1 = Scan.process_files opts (Scan.fileChildren (Scan.sortEntries ch)) v := by
      rw [← hs]
    rw [hs, hr1] at ih
    cases mok with
    | false => exact absurd rfl hmok
    | true =>
    cases lok with
    | false => exact absurd rfl hlok
    | true =>
    have hdev : opts.cross_mount_points = true ∨ dev = rootDev := by
      by_cases hc : opts.cross_mount_points = true
      · exact Or.inl hc
      · refine Or.inr ?_
        by_contra hd
        exact hcross ⟨by revert hc; cases opts.cross_mount_points <;> simp, hd⟩
    have hne : ch.isEmpty = false ∨ opts.include_empty_folders = true := by
      by_cases he : ch.isEmpty = true
      · refine Or.inr ?_
        by_contra hi
        exact hempty ⟨he, by revert hi; cases opts.include_empty_folders <;> simp⟩
      · exact Or.inl (by revert he; cases ch.isEmpty <;> simp)
    have hne' : (Scan.sortEntries (canonList ch)).isEmpty = false ∨
        opts.include_empty_folders = true := by
      rcases hne with h | h
      · exact Or.inl (by rw [isEmpty_sort_canon]; exact h)
      · exact Or.inr h
    simp only [canonNode]
    rw [Scan.trav_emit opts rootDev nm dev tCr tMo tAc (Scan.sortEntries (canonList ch))
        isRoot rootName v hdev hne',
      Scan.trav_emit opts rootDev nm dev tCr tMo tAc ch isRoot rootName v hdev hne]
    have hkey : Scan.sortEntries (Scan.sortEntries (canonList ch)) =
        (Scan.sortEntries ch).map canonNode := by
      rw [canonList_eq_map, sortEntries_map_canon, sortEntries_map_canon,
        sortEntries_idem]
    rw [hkey, fileChildren_map_canon, dirChildren_map_canon, ← canonList_eq_map, ih]
  · intro node isRoot rootName v h
    have hc : canonNode node = node := by
      cases node with
      | dir nm mok dev tCr tMo tAc lok ch => exact absurd rfl (h nm mok dev tCr tMo tAc lok ch)
      | file n mok m => rfl
      | symlink n => rfl
      | other n => rfl
    rw [hc]
  · intro rootName v
    rfl
  · intro rootName d rest v r ih1 ih2
    have hr : r = Scan.traverse_directory_to_xml opts rootDev d false rootName v := rfl
    rw [hr] at ih2
    simp only [canonList]
    rw [Scan.traverse_entries_cons, Scan.traverse_entries_cons, ih1, ih2]

/-- C9: re-running the scan against an unmodified tree, whatever order the
operating system lists each directory's entries in, produces an identical
event stream except for the `scanTime` attribute of the ScanInfo element.
Listing orders of the same tree are captured by equal canonical forms. -/
theorem rerun_identical_except_scantime (opts : Options) (rootName : String)
    (rootDev : Nat) (volumePath : String) (volumeSize freeSpace : Nat)
    (time₁ time₂ : String) (t₁ t₂ : FsNode)
    (h : canonNode t₁ = canonNode t₂) :
    Filesystem.run opts rootName rootDev volumePath volumeSize freeSpace time₁ t₁ =
      updateScanTime time₁
        (Filesystem.run opts rootName rootDev volumePath volumeSize freeSpace time₂ t₂) := by
  have hb : (Scan.traverse_directory_to_xml opts rootDev t₁ true rootName []) =
      (Scan.traverse_directory_to_xml opts rootDev t₂ true rootName []) := by
    rw [← trav_canon opts rootDev t₁ true rootName [], h,
      trav_canon opts rootDev t₂ true rootName []]
  have hbody := Scan.trav_update opts rootDev t₂ true rootName [] time₁
  simp only [updateScanTime] at hbody
  unfold Filesystem.run Filesystem.output_xml_header Filesystem.scan_info_event
    updateScanTime
  simp only [List.cons_append, List.nil_append, List.map_cons, List.map_append,
    List.map_nil]
  rw [hb, hbody]
  simp [setScanTime]

/-- Witness for the rerun theorem: the same two files listed in the two
possible orders, scanned at different times. -/
theorem rerun_identical_except_scantime_witness :
    canonNode (FsNode.dir "r" true 0 "T" "T" "T" true
        [FsNode.file "x" true (mkMeta 1 5), FsNode.file "y" true (mkMeta 2 6)]) =
      canonNode (FsNode.dir "r" true 0 "T" "T" "T" true
        [FsNode.file "y" true (mkMeta 2 6), FsNode.file "x" true (mkMeta 1 5)]) ∧
    Filesystem.run optsDefault "r" 0 "/" 100 50 "TIME1"
        (FsNode.dir "r" true 0 "T" "T" "T" true
          [FsNode.file "x" true (mkMeta 1 5), FsNode.file "y" true (mkMeta 2 6)]) =
      updateScanTime "TIME1"
        (Filesystem.run optsDefault "r" 0 "/" 100 50 "TIME2"
          (FsNode.dir "r" true 0 "T" "T" "T" true
            [FsNode.file "y" true (mkMeta 2 6), FsNode.file "x" true (mkMeta 1 5)])) :=
  ⟨rfl, rerun_identical_except_scantime optsDefault "r" 0 "/" 100 50 "TIME1" "TIME2"
    _ _ rfl⟩

/-- C7: every produced document begins with the XML declaration (version
`1.0`, encoding `UTF-8`) followed by the `GrandPerspectiveScanDump` root
element carrying `appVersion="4"` and `formatVersion="7"`. -/
theorem document_prologue (opts : Options) (rootName : String) (rootDev : Nat)
    (volumePath : String) (volumeSize freeSpace : Nat) (scanTime : String)
    (root : FsNode) :
    (Filesystem.run opts rootName rootDev volumePath volumeSize freeSpace scanTime
        root).take 2 =
      [XmlEvent.decl "1.0" "UTF-8",
       XmlEvent.start "GrandPerspectiveScanDump"
         [("appVersion", "4"), ("formatVersion", "7")]] := by
  rfl

/-- C5 (code bug): with apparent-size mode active, `run` still emits
`fileSizeMeasure="physical"`: the attribute value is the string literal
`"physical"` in `src/filesystem.rs`, while the repository's own integration
test (`tests/integration_test.rs`, `--apparent-size` case) and the spec
require `"logical"`. The whole document at the failing input, evaluated. -/
theorem file_size_measure_always_physical :
    Filesystem.run ⟨true, false, false, false⟩ "r" 0 "/" 100 50 "TS"
        (FsNode.dir "r" true 0 "T" "T" "T" true [FsNode.file "a" true (mkMeta 1 5)]) =
      [XmlEvent.decl "1.0" "UTF-8",
       XmlEvent.start "GrandPerspectiveScanDump"
         [("appVersion", "4"), ("formatVersion", "7")],
       XmlEvent.start "ScanInfo"
         [("volumePath", "/"), ("volumeSize", "100"), ("freeSpace", "50"),
          ("scanTime", "TS"), ("fileSizeMeasure", "physical")],
       XmlEvent.start "Folder"
         [("name", "r"), ("created", "T"), ("modified", "T"), ("accessed", "T")],
       XmlEvent.emptyElem "File"
         [("name", "a"), ("size", "5"), ("created", "T"), ("modified", "T"),
          ("accessed", "T")],
       XmlEvent.close "Folder",
       XmlEvent.close "ScanInfo",
       XmlEvent.close "GrandPerspectiveScanDump"] := by
  simp [Filesystem.run, Filesystem.output_xml_header, Filesystem.scan_info_event,
    Scan.traverse_directory_to_xml, Scan.traverse_entries, Scan.process_files,
    Scan.process_file_entry, Scan.file_size, Scan.fileChildren, Scan.dirChildren,
    Scan.sortEntries, mkMeta, qxEscape, qxEscapeChar, List.insertionSort,
    List.orderedInsert, entryLe, strLe, strLt, charsLt, entryName, isOkFile, isOkDir,
    fileKey, folderStart, fileElem]
  refine ⟨⟨?_, ?_⟩, ?_⟩ <;> rfl

/-- C3 counterexample: on the scenario tree `root/(a.txt(10B), sub/(b.txt(0B)),
empty/)` with default options, the output DOES contain an element for `sub`
(a childless Folder element), because the walker's empty-directory check
runs on the raw listing before zero-size files are filtered out. This
contradicts the claimed cascading-empty suppression. -/
theorem cascading_empty_counterexample :
    XmlEvent.start "Folder"
        [("name", "sub"), ("created", "T"), ("modified", "T"), ("accessed", "T")] ∈
      (Scan.traverse_directory_to_xml optsDefault 0 treeC3 true "root" []).2 := by
  have h : (Scan.traverse_directory_to_xml optsDefault 0 treeC3 true "root" []).2 =
      [XmlEvent.start "Folder"
         [("name", "root"), ("created", "T"), ("modified", "T"), ("accessed", "T")],
       XmlEvent.emptyElem "File"
         [("name", "a.txt"), ("size", "4096"), ("created", "T"), ("modified", "T"),
          ("accessed", "T")],
       XmlEvent.start "Folder"
         [("name", "sub"), ("created", "T"), ("modified", "T"), ("accessed", "T")],
       XmlEvent.close "Folder",
       XmlEvent.close "Folder"] := by
    simp [Scan.traverse_directory_to_xml, Scan.traverse_entries, Scan.process_files,
      Scan.process_file_entry, Scan.file_size, Scan.fileChildren, Scan.dirChildren,
      Scan.sortEntries, treeC3, mkMeta, optsDefault, qxEscape, qxEscapeChar,
      List.insertionSort, List.orderedInsert, entryLe, strLe, strLt, charsLt,
      entryName, isOkFile, isOkDir, fileKey, folderStart, fileElem]
    rfl
  rw [h]
  simp

/-- C3 amended: on the scenario tree with default options, `a.txt` is
emitted as a File element and nothing is emitted for `b.txt` or `empty`,
but `sub` is NOT suppressed: it appears as a childless Folder element (its
zero-size child is recorded in the inode tracker and then skipped). -/
theorem cascading_empty_amended :
    Scan.traverse_directory_to_xml optsDefault 0 treeC3 true "root" [] =
      ([2, 1],
       [XmlEvent.start "Folder"
          [("name", "root"), ("created", "T"), ("modified", "T"), ("accessed", "T")],
        XmlEvent.emptyElem "File"
          [("name", "a.txt"), ("size", "4096"), ("created", "T"), ("modified", "T"),
           ("accessed", "T")],
        XmlEvent.start "Folder"
          [("name", "sub"), ("created", "T"), ("modified", "T"), ("accessed", "T")],
        XmlEvent.close "Folder",
        XmlEvent.close "Folder"]) := by
  simp [Scan.traverse_directory_to_xml, Scan.traverse_entries, Scan.process_files,
    Scan.process_file_entry, Scan.file_size, Scan.fileChildren, Scan.dirChildren,
    Scan.sortEntries, treeC3, mkMeta, optsDefault, qxEscape, qxEscapeChar,
    List.insertionSort, List.orderedInsert, entryLe, strLe, strLt, charsLt,
    entryName, isOkFile, isOkDir, fileKey, folderStart, fileElem]
  rfl

/-- C4 counterexample: two sibling files whose inode identity is unavailable
(identity 0). The sentinel IS inserted into the tracker (final visited set
`[0]`) and the second file is suppressed as a hard-link duplicate, so the
output holds a single File element; the claim says the sentinel is never
inserted and no such file is ever suppressed. -/
theorem zero_inode_counterexample :
    Scan.traverse_directory_to_xml optsDefault 0 treeC4 true "root" [] =
      ([0],
       [XmlEvent.start "Folder"
          [("name", "root"), ("created", "T"), ("modified", "T"), ("accessed", "T")],
        XmlEvent.emptyElem "File"
          [("name", "a"), ("size", "5"), ("created", "T"), ("modified", "T"),
           ("accessed", "T")],
        XmlEvent.close "Folder"]) := by
  simp [Scan.traverse_directory_to_xml, Scan.traverse_entries, Scan.process_files,
    Scan.process_file_entry, Scan.file_size, Scan.fileChildren, Scan.dirChildren,
    Scan.sortEntries, treeC4, mkMeta, optsDefault, qxEscape, qxEscapeChar,
    List.insertionSort, List.orderedInsert, entryLe, strLe, strLt, charsLt,
    entryName, isOkFile, isOkDir, fileKey, folderStart, fileElem]
  rfl

/-- C4 amended: the zero sentinel identity receives no special treatment:
processing a first file with identity 0 inserts 0 into the tracker and emits
the element; any later file with identity 0 is then suppressed as a
hard-link duplicate. -/
theorem zero_inode_amended (opts : Options) (n₁ n₂ : String) (m : FileMeta)
    (v : List Nat) (h0 : m.inode = 0) (hv : (0 : Nat) ∉ v)
    (hsz : Scan.file_size m opts.apparent_size ≠ 0) :
    Scan.process_file_entry opts n₁ m v =
      (0 :: v, [fileElem n₁ (Scan.file_size m opts.apparent_size) m]) ∧
    Scan.process_file_entry opts n₂ m (0 :: v) = (0 :: v, []) := by
  constructor
  · simp [Scan.process_file_entry, h0, hv, hsz]
  · simp [Scan.process_file_entry, h0]

/-- Witness for the amended zero-sentinel theorem at identity 0, size 5. -/
theorem zero_inode_amended_witness :
    ((mkMeta 0 5).inode = 0 ∧ (0 : Nat) ∉ ([] : List Nat) ∧
      Scan.file_size (mkMeta 0 5) optsDefault.apparent_size ≠ 0) ∧
    (Scan.process_file_entry optsDefault "a" (mkMeta 0 5) [] =
      ([0], [fileElem "a" (Scan.file_size (mkMeta 0 5) optsDefault.apparent_size)
        (mkMeta 0 5)]) ∧
     Scan.process_file_entry optsDefault "b" (mkMeta 0 5) [0] = ([0], [])) :=
  ⟨⟨rfl, by decide, by decide⟩,
   zero_inode_amended optsDefault "a" "b" (mkMeta 0 5) [] rfl (by decide) (by decide)⟩

/-- C1: hard-link deduplication through the shared inode tracker. (a) Two
sibling directory entries sharing one inode produce exactly one File element,
the first in traversal (sorted) order; (b) two sibling files with distinct
inodes produce two File elements; (c) hard links encountered in different
directories of the same scan still produce exactly one File element across
the entire output, because the tracker is threaded through the whole
traversal. -/
theorem hardlink_dedup (opts : Options) (rootDev : Nat) (rootName : String)
    (dn tCr tMo tAc : String) (v : List Nat) :
    (∀ (n₁ n₂ : String) (m : FileMeta), strLt n₁ n₂ = true → m.inode ∉ v →
      Scan.file_size m opts.apparent_size ≠ 0 →
      Scan.traverse_directory_to_xml opts rootDev
          (.dir dn true rootDev tCr tMo tAc true
            [.file n₁ true m, .file n₂ true m]) true rootName v =
        (m.inode :: v,
         [folderStart rootName tCr tMo tAc,
          fileElem n₁ (Scan.file_size m opts.apparent_size) m,
          XmlEvent.close "Folder"])) ∧
    (∀ (n₁ n₂ : String) (m₁ m₂ : FileMeta), strLt n₁ n₂ = true →
      m₁.inode ∉ v → m₂.inode ∉ v → m₁.inode ≠ m₂.inode →
      Scan.file_size m₁ opts.apparent_size ≠ 0 →
      Scan.file_size m₂ opts.apparent_size ≠ 0 →
      Scan.traverse_directory_to_xml opts rootDev
          (.dir dn true rootDev tCr tMo tAc true
            [.file n₁ true m₁, .file n₂ true m₂]) true rootName v =
        (m₂.inode :: m₁.inode :: v,
         [folderStart rootName tCr tMo tAc,
          fileElem n₁ (Scan.file_size m₁ opts.apparent_size) m₁,
          fileElem n₂ (Scan.file_size m₂ opts.apparent_size) m₂,
          XmlEvent.close "Folder"])) ∧
    (∀ (n₁ n₂ : String) (m : FileMeta), m.inode ∉ v →
      Scan.file_size m opts.apparent_size ≠ 0 →
      Scan.traverse_directory_to_xml opts rootDev
          (.dir dn true rootDev tCr tMo tAc true
            [.dir "a" true rootDev tCr tMo tAc true [.file n₁ true m],
             .dir "b" true rootDev tCr tMo tAc true [.file n₂ true m]])
          true rootName v =
        (m.inode :: v,
         [folderStart rootName tCr tMo tAc,
          folderStart "a" tCr tMo tAc,
          fileElem n₁ (Scan.file_size m opts.apparent_size) m,
          XmlEvent.close "Folder",
          folderStart "b" tCr tMo tAc,
          XmlEvent.close "Folder",
          XmlEvent.close "Folder"])) := by
  refine ⟨?_, ?_, ?_⟩
  · intro n₁ n₂ m hlt hv hsz
    have hle : entryLe (FsNode.file n₁ true m) (FsNode.file n₂ true m) := by
      simp [entryLe, entryName, strLe, strLt_asymm hlt]
    have hsort : Scan.sortEntries [FsNode.file n₁ true m, FsNode.file n₂ true m] =
        [FsNode.file n₁ true m, FsNode.file n₂ true m] := by
      simp [Scan.sortEntries, List.insertionSort, List.orderedInsert, hle]
    rw [Scan.trav_emit opts rootDev dn rootDev tCr tMo tAc
      [FsNode.file n₁ true m, FsNode.file n₂ true m] true rootName v
      (Or.inr rfl) (Or.inl rfl)]
    rw [hsort]
    have hfc : Scan.fileChildren [FsNode.file n₁ true m, FsNode.file n₂ true m] =
        [(n₁, m), (n₂, m)] := by
      simp [Scan.fileChildren, isOkFile, fileKey, List.filter]
    have hdc : Scan.dirChildren [FsNode.file n₁ true m, FsNode.file n₂ true m] = [] := by
      simp [Scan.dirChildren, isOkDir, List.filter]
    rw [hfc, hdc]
    have hp : Scan.process_files opts [(n₁, m), (n₂, m)] v =
        (m.inode :: v, [fileElem n₁ (Scan.file_size m opts.apparent_size) m]) := by
      simp [Scan.process_files, Scan.process_file_entry, hv, hsz]
    rw [hp, Scan.traverse_entries_nil]
    simp
  · intro n₁ n₂ m₁ m₂ hlt hv₁ hv₂ hne hsz₁ hsz₂
    have hle : entryLe (FsNode.file n₁ true m₁) (FsNode.file n₂ true m₂) := by
      simp [entryLe, entryName, strLe, strLt_asymm hlt]
    have hsort : Scan.sortEntries [FsNode.file n₁ true m₁, FsNode.file n₂ true m₂] =
        [FsNode.file n₁ true m₁, FsNode.file n₂ true m₂] := by
      simp [Scan.sortEntries, List.insertionSort, List.orderedInsert, hle]
    rw [Scan.trav_emit opts rootDev dn rootDev tCr tMo tAc
      [FsNode.file n₁ true m₁, FsNode.file n₂ true m₂] true rootName v
      (Or.inr rfl) (Or.inl rfl)]
    rw [hsort]
    have hfc : Scan.fileChildren [FsNode.file n₁ true m₁, FsNode.file n₂ true m₂] =
        [(n₁, m₁), (n₂, m₂)] := by
      simp [Scan.fileChildren, isOkFile, fileKey, List.filter]
    have hdc : Scan.dirChildren [FsNode.file n₁ true m₁, FsNode.file n₂ true m₂] = [] := by
      simp [Scan.dirChildren, isOkDir, List.filter]
    rw [hfc, hdc]
    have hp : Scan.process_files opts [(n₁, m₁), (n₂, m₂)] v =
        (m₂.inode :: m₁.inode :: v,
         [fileElem n₁ (Scan.file_size m₁ opts.apparent_size) m₁,
          fileElem n₂ (Scan.file_size m₂ opts.apparent_size) m₂]) := by
      simp [Scan.process_files, Scan.process_file_entry, hv₁, hv₂, hsz₁, hsz₂,
        Ne.symm hne]
    rw [hp, Scan.traverse_entries_nil]
    simp
  · intro n₁ n₂ m hv hsz
    have hle : entryLe
        (FsNode.dir "a" true rootDev tCr tMo tAc true [FsNode.file n₁ true m])
        (FsNode.dir "b" true rootDev tCr tMo tAc true [FsNode.file n₂ true m]) := by
      simp only [entryLe, entryName]
      decide
    have hsort : Scan.sortEntries
        [FsNode.dir "a" true rootDev tCr tMo tAc true [FsNode.file n₁ true m],
         FsNode.dir "b" true rootDev tCr tMo tAc true [FsNode.file n₂ true m]] =
        [FsNode.dir "a" true rootDev tCr tMo tAc true [FsNode.file n₁ true m],
         FsNode.dir "b" true rootDev tCr tMo tAc true [FsNode.file n₂ true m]] := by
      simp [Scan.sortEntries, List.insertionSort, List.orderedInsert, hle]
    rw [Scan.trav_emit opts rootDev dn rootDev tCr tMo tAc
      [FsNode.dir "a" true rootDev tCr tMo tAc true [FsNode.file n₁ true m],
       FsNode.dir "b" true rootDev tCr tMo tAc true [FsNode.file n₂ true m]]
      true rootName v (Or.inr rfl) (Or.inl rfl)]
    rw [hsort]
    have hfc : Scan.fileChildren
        [FsNode.dir "a" true rootDev tCr tMo tAc true [FsNode.file n₁ true m],
         FsNode.dir "b" true rootDev tCr tMo tAc true [FsNode.file n₂ true m]] = [] := by
      simp [Scan.fileChildren, isOkFile, List.filter]
    have hdc : Scan.dirChildren
        [FsNode.dir "a" true rootDev tCr tMo tAc true [FsNode.file n₁ true m],
         FsNode.dir "b" true rootDev tCr tMo tAc true [FsNode.file n₂ true m]] =
        [FsNode.dir "a" true rootDev tCr tMo tAc true [FsNode.file n₁ true m],
         FsNode.dir "b" true rootDev tCr tMo tAc true [FsNode.file n₂ true m]] := by
      simp [Scan.dirChildren, isOkDir, List.filter]
    rw [hfc, hdc]
    have hpf : Scan.process_files opts [] v = (v, []) := rfl
    rw [hpf]
    have hA : Scan.traverse_directory_to_xml opts rootDev
        (FsNode.dir "a" true rootDev tCr tMo tAc true [FsNode.file n₁ true m])
        false rootName v =
        (m.inode :: v,
         [folderStart "a" tCr tMo tAc,
          fileElem n₁ (Scan.file_size m opts.apparent_size) m,
          XmlEvent.close "Folder"]) := by
      rw [Scan.trav_emit opts rootDev "a" rootDev tCr tMo tAc
        [FsNode.file n₁ true m] false rootName v (Or.inr rfl) (Or.inl rfl)]
      simp [Scan.sortEntries, List.insertionSort, List.orderedInsert,
        Scan.fileChildren, Scan.dirChildren, isOkFile, isOkDir, fileKey, List.filter,
        Scan.process_files, Scan.process_file_entry, hv, hsz,
        Scan.traverse_entries_nil]
    have hB : Scan.traverse_directory_to_xml opts rootDev
        (FsNode.dir "b" true rootDev tCr tMo tAc true [FsNode.file n₂ true m])
        false rootName (m.inode :: v) =
        (m.inode :: v, [folderStart "b" tCr tMo tAc, XmlEvent.close "Folder"]) := by
      rw [Scan.trav_emit opts rootDev "b" rootDev tCr tMo tAc
        [FsNode.file n₂ true m] false rootName (m.inode :: v)
        (Or.inr rfl) (Or.inl rfl)]
      simp [Scan.sortEntries, List.insertionSort, List.orderedInsert,
        Scan.fileChildren, Scan.dirChildren, isOkFile, isOkDir, fileKey, List.filter,
        Scan.process_files, Scan.process_file_entry, Scan.traverse_entries_nil]
    rw [Scan.traverse_entries_cons, hA, Scan.traverse_entries_cons, hB,
      Scan.traverse_entries_nil]
    simp

/-- Witness for the hard-link deduplication theorem: concrete shared-inode
pair, distinct-inode pair, and cross-directory shared-inode pair. -/
theorem hardlink_dedup_witness :
    (strLt "x" "y" = true ∧ (7 : Nat) ∉ ([] : List Nat) ∧
      Scan.file_size (mkMeta 7 5) optsDefault.apparent_size ≠ 0) ∧
    Scan.traverse_directory_to_xml optsDefault 0
        (.dir "d" true 0 "T" "T" "T" true
          [.file "x" true (mkMeta 7 5), .file "y" true (mkMeta 7 5)]) true "r" [] =
      ([7],
       [folderStart "r" "T" "T" "T",
        fileElem "x" (Scan.file_size (mkMeta 7 5) optsDefault.apparent_size) (mkMeta 7 5),
        XmlEvent.close "Folder"]) ∧
    Scan.traverse_directory_to_xml optsDefault 0
        (.dir "d" true 0 "T" "T" "T" true
          [.file "x" true (mkMeta 7 5), .file "y" true (mkMeta 8 6)]) true "r" [] =
      ([8, 7],
       [folderStart "r" "T" "T" "T",
        fileElem "x" (Scan.file_size (mkMeta 7 5) optsDefault.apparent_size) (mkMeta 7 5),
        fileElem "y" (Scan.file_size (mkMeta 8 6) optsDefault.apparent_size) (mkMeta 8 6),
        XmlEvent.close "Folder"]) ∧
    Scan.traverse_directory_to_xml optsDefault 0
        (.dir "d" true 0 "T" "T" "T" true
          [.dir "a" true 0 "T" "T" "T" true [.file "x" true (mkMeta 7 5)],
           .dir "b" true 0 "T" "T" "T" true [.file "y" true (mkMeta 7 5)]]) true "r" [] =
      ([7],
       [folderStart "r" "T" "T" "T",
        folderStart "a" "T" "T" "T",
        fileElem "x" (Scan.file_size (mkMeta 7 5) optsDefault.apparent_size) (mkMeta 7 5),
        XmlEvent.close "Folder",
        folderStart "b" "T" "T" "T",
        XmlEvent.close "Folder",
        XmlEvent.close "Folder"]) :=
  ⟨⟨by decide, by decide, by decide⟩,
   (hardlink_dedup optsDefault 0 "r" "d" "T" "T" "T" []).1 "x" "y" (mkMeta 7 5)
     (by decide) (by decide) (by decide),
   (hardlink_dedup optsDefault 0 "r" "d" "T" "T" "T" []).2.1 "x" "y" (mkMeta 7 5)
     (mkMeta 8 6) (by decide) (by decide) (by decide) (by decide) (by decide)
     (by decide),
   (hardlink_dedup optsDefault 0 "r" "d" "T" "T" "T" []).2.2 "x" "y" (mkMeta 7 5)
     (by decide) (by decide)⟩

/-- Characters produced for a hexadecimal reference are decimal digits or
upper-case hex letters. -/
theorem hexChars_mem : ∀ (n : Nat), ∀ c ∈ hexChars n,
    (48 ≤ c.toNat ∧ c.toNat ≤ 57) ∨ (65 ≤ c.toNat ∧ c.toNat ≤ 70) := by
  intro n
  induction n using hexChars.induct with
  | case1 n h =>
    intro c hc
    unfold hexChars at hc
    rw [dif_pos h] at hc
    simp only [List.mem_singleton] at hc
    subst hc
    interval_cases n <;> decide
  | case2 n h ih =>
    intro c hc
    unfold hexChars at hc
    rw [dif_neg h] at hc
    simp only [List.mem_append, List.mem_singleton] at hc
    rcases hc with hc | rfl
    · exact ih c hc
    · have hk : n % 16 < 16 := Nat.mod_lt _ (by omega)
      generalize n % 16 = k at hk
      interval_cases k <;> decide

/-- Per-character guarantee of `sanitize_for_xml`: the output never contains
a raw markup special other than the ampersands of its own escapes, never an
ASCII control except tab, line feed, carriage return, and never DEL. -/
theorem sanitizeChar_chars (c₀ : Char) :
    ∀ c ∈ XmlOutput.sanitizeChar c₀,
      (c.toNat ≠ 60 ∧ c.toNat ≠ 62 ∧ c.toNat ≠ 34 ∧ c.toNat ≠ 39) ∧
      (c.toNat < 32 → c.toNat = 9 ∨ c.toNat = 10 ∨ c.toNat = 13) ∧
      c.toNat ≠ 127 := by
  intro c hc
  unfold XmlOutput.sanitizeChar at hc
  split at hc
  · unfold numCharRef at hc
    simp only [List.cons_append, List.mem_cons, List.mem_append,
      List.mem_singleton, List.not_mem_nil, or_false] at hc
    rcases hc with rfl | rfl | rfl | hc | rfl
    · decide
    · decide
    · decide
    · rcases hexChars_mem _ c hc with ⟨h1, h2⟩ | ⟨h1, h2⟩ <;>
        exact ⟨⟨by omega, by omega, by omega, by omega⟩, by omega, by omega⟩
    · decide
  · split at hc
    case isTrue hws =>
      simp only [List.mem_singleton] at hc
      subst hc
      refine ⟨⟨by omega, by omega, by omega, by omega⟩, fun _ => ?_, by omega⟩
      omega
    case isFalse hws =>
      split at hc
      · rw [show ("&amp;".data) = ['&', 'a', 'm', 'p', ';'] from rfl] at hc
        simp only [List.mem_cons, List.not_mem_nil, or_false] at hc
        rcases hc with rfl | rfl | rfl | rfl | rfl <;> decide
      · split at hc
        · rw [show ("&lt;".data) = ['&', 'l', 't', ';'] from rfl] at hc
          simp only [List.mem_cons, List.not_mem_nil, or_false] at hc
          rcases hc with rfl | rfl | rfl | rfl <;> decide
        · split at hc
          · rw [show ("&gt;".data) = ['&', 'g', 't', ';'] from rfl] at hc
            simp only [List.mem_cons, List.not_mem_nil, or_false] at hc
            rcases hc with rfl | rfl | rfl | rfl <;> decide
          · split at hc
            · rw [show ("&quot;".data) = ['&', 'q', 'u', 'o', 't', ';'] from rfl] at hc
              simp only [List.mem_cons, List.not_mem_nil, or_false] at hc
              rcases hc with rfl | rfl | rfl | rfl | rfl | rfl <;> decide
            · split at hc
              · rw [show ("&apos;".data) = ['&', 'a', 'p', 'o', 's', ';'] from rfl] at hc
                simp only [List.mem_cons, List.not_mem_nil, or_false] at hc
                rcases hc with rfl | rfl | rfl | rfl | rfl | rfl <;> decide
              · rename_i hctl hamp hlt hgt hquot hapos
                simp only [List.mem_singleton] at hc
                subst hc
                push_neg at hctl
                refine ⟨⟨?_, ?_, ?_, ?_⟩, ?_, ?_⟩ <;> omega

/-- Per-character guarantee of `xml_escape`: the output never contains a raw
markup special other than the ampersands of its own escapes, and never any
Unicode Cc control character (tab, line feed and carriage return included:
they are escaped as well). -/
theorem xmlEscapeChar_chars (c₀ : Char) :
    ∀ c ∈ Xml.xmlEscapeChar c₀,
      (c.toNat ≠ 60 ∧ c.toNat ≠ 62 ∧ c.toNat ≠ 34 ∧ c.toNat ≠ 39) ∧
      ¬(c.toNat < 32) ∧ ¬(127 ≤ c.toNat ∧ c.toNat ≤ 159) := by
  intro c hc
  unfold Xml.xmlEscapeChar at hc
  split at hc
  · rw [show ("&amp;".data) = ['&', 'a', 'm', 'p', ';'] from rfl] at hc
    simp only [List.mem_cons, List.not_mem_nil, or_false] at hc
    rcases hc with rfl | rfl | rfl | rfl | rfl <;> decide
  · split at hc
    · rw [show ("&lt;".data) = ['&', 'l', 't', ';'] from rfl] at hc
      simp only [List.mem_cons, List.not_mem_nil, or_false] at hc
      rcases hc with rfl | rfl | rfl | rfl <;> decide
    · split at hc
      · rw [show ("&gt;".data) = ['&', 'g', 't', ';'] from rfl] at hc
        simp only [List.mem_cons, List.not_mem_nil, or_false] at hc
        rcases hc with rfl | rfl | rfl | rfl <;> decide
      · split at hc
        · rw [show ("&quot;".data) = ['&', 'q', 'u', 'o', 't', ';'] from rfl] at hc
          simp only [List.mem_cons, List.not_mem_nil, or_false] at hc
          rcases hc with rfl | rfl | rfl | rfl | rfl | rfl <;> decide
        · split at hc
          · rw [show ("&apos;".data) = ['&', 'a', 'p', 'o', 's', ';'] from rfl] at hc
            simp only [List.mem_cons, List.not_mem_nil, or_false] at hc
            rcases hc with rfl | rfl | rfl | rfl | rfl | rfl <;> decide
          · split at hc
            · unfold numCharRef at hc
              simp only [List.cons_append, List.mem_cons, List.mem_append,
                List.mem_singleton, List.not_mem_nil, or_false] at hc
              rcases hc with rfl | rfl | rfl | hc | rfl
              · decide
              · decide
              · decide
              · rcases hexChars_mem _ c hc with ⟨h1, h2⟩ | ⟨h1, h2⟩ <;>
                  exact ⟨⟨by omega, by omega, by omega, by omega⟩, by omega, by omega⟩
              · decide
            · rename_i hamp hlt hgt hquot hapos hctl
              simp only [List.mem_singleton] at hc
              subst hc
              have hctl1 : rustIsControl c = false := by
                cases hx : rustIsControl c
                · rfl
                · exact absurd (by simp [hx]) hctl
              have hA : (decide (c.toNat ≤ 31) ||
                  (decide (127 ≤ c.toNat) && decide (c.toNat ≤ 159))) = false := hctl1
              simp only [Bool.or_eq_false_iff, Bool.and_eq_false_iff,
                decide_eq_false_iff_not] at hA
              obtain ⟨ha1, ha2⟩ := hA
              refine ⟨⟨hlt, hgt, hquot, hapos⟩, by omega, ?_⟩
              rintro ⟨hu, hv⟩
              rcases ha2 with h | h <;> omega

/-- C6 counterexample: characters outside the valid XML ranges (U+FFFE) and
C1 control characters (U+0085) pass through `sanitize_for_xml` unescaped,
and U+FFFE also passes through `xml_escape` unescaped, while `xml_escape`
escapes horizontal tab instead of passing it through. -/
theorem escaping_gap_counterexample :
    XmlOutput.sanitize_for_xml (String.mk [Char.ofNat 65534]) =
      String.mk [Char.ofNat 65534] ∧
    XmlOutput.sanitize_for_xml (String.mk [Char.ofNat 133]) =
      String.mk [Char.ofNat 133] ∧
    Xml.xml_escape (String.mk [Char.ofNat 65534]) = String.mk [Char.ofNat 65534] ∧
    Xml.xml_escape (String.mk [Char.ofNat 9]) = "&#x9;" := by
  refine ⟨by decide, by decide, by decide, ?_⟩
  show String.mk ((List.map Xml.xmlEscapeChar [Char.ofNat 9]).flatten) = "&#x9;"
  simp only [List.map_cons, List.map_nil]
  rw [show Xml.xmlEscapeChar (Char.ofNat 9) = numCharRef (Char.ofNat 9) from rfl]
  unfold numCharRef
  rw [show (Char.ofNat 9).toNat = 9 from rfl, hexChars, dif_pos (by omega)]
  rfl

/-- C6 amended: the five XML specials are always escaped (no raw markup
special other than the escapes' own ampersands survives in either escaper's
output). `sanitize_for_xml` replaces exactly the ASCII controls
U+0000-U+0008, U+000B-U+000C, U+000E-U+001F and DEL with hexadecimal
references and passes tab, line feed and carriage return through, but lets
C1 controls and characters outside the valid XML ranges (such as U+FFFE)
pass through raw. `xml_escape` replaces every Unicode Cc control character,
including tab, line feed and carriage return, and U+FFFD. -/
theorem escaping_actual_behavior :
    (∀ s : String, ∀ c ∈ (XmlOutput.sanitize_for_xml s).data,
      (c.toNat ≠ 60 ∧ c.toNat ≠ 62 ∧ c.toNat ≠ 34 ∧ c.toNat ≠ 39) ∧
      (c.toNat < 32 → c.toNat = 9 ∨ c.toNat = 10 ∨ c.toNat = 13) ∧
      c.toNat ≠ 127) ∧
    (∀ s : String, ∀ c ∈ (Xml.xml_escape s).data,
      (c.toNat ≠ 60 ∧ c.toNat ≠ 62 ∧ c.toNat ≠ 34 ∧ c.toNat ≠ 39) ∧
      ¬(c.toNat < 32) ∧ ¬(127 ≤ c.toNat ∧ c.toNat ≤ 159)) := by
  constructor
  · intro s c hc
    have hdata : (XmlOutput.sanitize_for_xml s).data =
        (s.data.map XmlOutput.sanitizeChar).flatten := rfl
    rw [hdata] at hc
    obtain ⟨l, hl, hcl⟩ := List.mem_flatten.mp hc
    obtain ⟨c₀, -, rfl⟩ := List.mem_map.mp hl
    exact sanitizeChar_chars c₀ c hcl
  · intro s c hc
    have hdata : (Xml.xml_escape s).data = (s.data.map Xml.xmlEscapeChar).flatten := rfl
    rw [hdata] at hc
    obtain ⟨l, hl, hcl⟩ := List.mem_flatten.mp hc
    obtain ⟨c₀, -, rfl⟩ := List.mem_map.mp hl
    exact xmlEscapeChar_chars c₀ c hcl

/-- Witness for the escaping guarantees on concrete escaped strings. -/
theorem escaping_actual_behavior_witness :
    ('&' ∈ (XmlOutput.sanitize_for_xml "<").data ∧
      (('&').toNat ≠ 60 ∧ ('&').toNat ≠ 62 ∧ ('&').toNat ≠ 34 ∧ ('&').toNat ≠ 39) ∧
      (('&').toNat < 32 → ('&').toNat = 9 ∨ ('&').toNat = 10 ∨ ('&').toNat = 13) ∧
      ('&').toNat ≠ 127) ∧
    ('t' ∈ (Xml.xml_escape ">").data ∧
      (('t').toNat ≠ 60 ∧ ('t').toNat ≠ 62 ∧ ('t').toNat ≠ 34 ∧ ('t').toNat ≠ 39) ∧
      ¬(('t').toNat < 32) ∧ ¬(127 ≤ ('t').toNat ∧ ('t').toNat ≤ 159)) :=
  ⟨⟨by decide, escaping_actual_behavior.1 "<" '&' (by decide)⟩,
   ⟨by decide, escaping_actual_behavior.2 ">" 't' (by decide)⟩⟩

/-- Inserting an element below every element of a list puts it in front. -/
theorem orderedInsert_all_le (a : FsNode) :
    ∀ l : List FsNode, (∀ y ∈ l, entryLe a y) →
      List.orderedInsert entryLe a l = a :: l := by
  intro l hall
  cases l with
  | nil => rfl
  | cons x t =>
    have h := hall x (List.mem_cons_self x t)
    simp [List.orderedInsert, h]

/-- Filtering commutes with ordered insertion into a sorted list. -/
theorem filter_orderedInsert (p : FsNode → Bool) (a : FsNode) :
    ∀ l : List FsNode, List.Pairwise entryLe l →
      (List.orderedInsert entryLe a l).filter p =
        if p a then List.orderedInsert entryLe a (l.filter p) else l.filter p := by
  intro l
  induction l with
  | nil =>
    intro _
    by_cases hp : p a = true <;> simp [List.orderedInsert, hp]
  | cons x t ih =>
    intro hpair
    rw [List.pairwise_cons] at hpair
    obtain ⟨hx, hpt⟩ := hpair
    by_cases hax : entryLe a x
    · have hins : List.orderedInsert entryLe a (x :: t) = a :: x :: t := by
        simp [List.orderedInsert, hax]
      rw [hins]
      by_cases hp : p a = true
      · rw [if_pos hp, List.filter_cons_of_pos hp, orderedInsert_all_le]
        intro y hy
        have hy' := List.mem_of_mem_filter hy
        rcases List.mem_cons.mp hy' with heq | hyt
        · exact heq ▸ hax
        · exact strLe_trans hax (hx y hyt)
      · rw [if_neg hp, List.filter_cons_of_neg (by simpa using hp)]
    · have hins : List.orderedInsert entryLe a (x :: t) =
          x :: List.orderedInsert entryLe a t := by
        simp [List.orderedInsert, hax]
      rw [hins]
      by_cases hpx : p x = true
      · rw [List.filter_cons_of_pos hpx, ih hpt, List.filter_cons_of_pos hpx]
        by_cases hp : p a = true
        · rw [if_pos hp, if_pos hp]
          simp [List.orderedInsert, hax]
        · rw [if_neg hp, if_neg hp]
      · rw [List.filter_cons_of_neg (by simpa using hpx), ih hpt,
          List.filter_cons_of_neg (by simpa using hpx)]

/-- Filtering commutes with the walker's stable sort. -/
theorem filter_sortEntries (p : FsNode → Bool) :
    ∀ l : List FsNode, (Scan.sortEntries l).filter p = Scan.sortEntries (l.filter p) := by
  intro l
  induction l with
  | nil => rfl
  | cons x t ih =>
    simp only [Scan.sortEntries, List.insertionSort] at ih ⊢
    rw [filter_orderedInsert p x _ (List.sorted_insertionSort entryLe t), ih]
    by_cases hp : p x = true
    · rw [if_pos hp, List.filter_cons_of_pos hp]
      simp [List.insertionSort]
    · rw [if_neg hp, List.filter_cons_of_neg (by simpa using hp)]

/-- A sibling entry invisible to the classification (not an ok file, not an
ok directory) does not affect the directory's traversal at all. -/
theorem trav_invisible_sibling (opts : Options) (rootDev : Nat)
    (nm : String) (dev : Nat) (tCr tMo tAc : String) (xs ys : List FsNode)
    (bad : FsNode) (isRoot : Bool) (rootName : String) (v : List Nat)
    (hf : isOkFile bad = false) (hd : isOkDir bad = false)
    (hne : xs ++ ys ≠ [] ∨ opts.include_empty_folders = true) :
    Scan.traverse_directory_to_xml opts rootDev
        (.dir nm true dev tCr tMo tAc true (xs ++ bad :: ys)) isRoot rootName v =
      Scan.traverse_directory_to_xml opts rootDev
        (.dir nm true dev tCr tMo tAc true (xs ++ ys)) isRoot rootName v := by
  by_cases hdev : opts.cross_mount_points = false ∧ dev ≠ rootDev
  · rw [Scan.trav_mount_skip opts rootDev nm dev tCr tMo tAc true (xs ++ bad :: ys)
      isRoot rootName v hdev.1 hdev.2,
      Scan.trav_mount_skip opts rootDev nm dev tCr tMo tAc true (xs ++ ys)
      isRoot rootName v hdev.1 hdev.2]
  · have hdev' : opts.cross_mount_points = true ∨ dev = rootDev := by
      by_cases hc : opts.cross_mount_points = true
      · exact Or.inl hc
      · refine Or.inr ?_
        by_contra hdd
        exact hdev ⟨by revert hc; cases opts.cross_mount_points <;> simp, hdd⟩
    have hne1 : (xs ++ bad :: ys).isEmpty = false := by
      cases xs <;> rfl
    have hne2 : (xs ++ ys).isEmpty = false ∨ opts.include_empty_folders = true := by
      rcases hne with h | h
      · left
        cases hxy : (xs ++ ys).isEmpty
        · rfl
        · exact absurd (List.isEmpty_iff.mp hxy) h
      · exact Or.inr h
    rw [Scan.trav_emit opts rootDev nm dev tCr tMo tAc (xs ++ bad :: ys) isRoot
        rootName v hdev' (Or.inl hne1),
      Scan.trav_emit opts rootDev nm dev tCr tMo tAc (xs ++ ys) isRoot
        rootName v hdev' hne2]
    have hfilter : ∀ p : FsNode → Bool, p bad = false →
        (xs ++ bad :: ys).filter p = (xs ++ ys).filter p := by
      intro p hpbad
      simp [List.filter_append, List.filter_cons, hpbad]
    have hfc : Scan.fileChildren (Scan.sortEntries (xs ++ bad :: ys)) =
        Scan.fileChildren (Scan.sortEntries (xs ++ ys)) := by
      unfold Scan.fileChildren
      rw [filter_sortEntries, filter_sortEntries, hfilter isOkFile hf]
    have hdc : Scan.dirChildren (Scan.sortEntries (xs ++ bad :: ys)) =
        Scan.dirChildren (Scan.sortEntries (xs ++ ys)) := by
      unfold Scan.dirChildren
      rw [filter_sortEntries, filter_sortEntries, hfilter isOkDir hd]
    rw [hfc, hdc]

/-- A sibling whose traversal is a silent no-op can be dropped from the
second pass. -/
theorem entries_noop_removed (opts : Options) (rootDev : Nat) (rootName : String)
    (bad : FsNode)
    (hbad : ∀ v : List Nat,
      Scan.traverse_directory_to_xml opts rootDev bad false rootName v = (v, [])) :
    ∀ (xs ys : List FsNode) (v : List Nat),
      Scan.traverse_entries opts rootDev rootName (xs ++ bad :: ys) v =
        Scan.traverse_entries opts rootDev rootName (xs ++ ys) v := by
  intro xs
  induction xs with
  | nil =>
    intro ys v
    simp only [List.nil_append]
    rw [Scan.traverse_entries_cons, hbad v]
    simp
  | cons x rest ih =>
    intro ys v
    simp only [List.cons_append]
    rw [Scan.traverse_entries_cons, Scan.traverse_entries_cons, ih]

/-- C8: node-local directory failures are silent and local. A directory
whose own metadata read fails, or whose child listing fails, contributes no
events (no Folder tags, no children) and leaves the inode tracker untouched;
a listing-failure directory can be dropped from its parent's second pass
without changing the result; and a child directory with unreadable metadata
can be dropped from its parent's children without changing the parent's
traversal (given the parent stays non-empty or empty folders are included),
so the failure never alters sibling or ancestor processing. -/
theorem unreadable_directory_silent (opts : Options) (rootDev : Nat)
    (rootName : String) :
    (∀ (nm : String) (dev : Nat) (tCr tMo tAc : String) (lok : Bool)
        (ch : List FsNode) (isRoot : Bool) (v : List Nat),
      Scan.traverse_directory_to_xml opts rootDev
          (.dir nm false dev tCr tMo tAc lok ch) isRoot rootName v = (v, [])) ∧
    (∀ (nm : String) (dev : Nat) (tCr tMo tAc : String) (ch : List FsNode)
        (isRoot : Bool) (v : List Nat),
      Scan.traverse_directory_to_xml opts rootDev
          (.dir nm true dev tCr tMo tAc false ch) isRoot rootName v = (v, [])) ∧
    (∀ (bn : String) (bdev : Nat) (bc bm ba : String) (bch : List FsNode)
        (xs ys : List FsNode) (v : List Nat),
      Scan.traverse_entries opts rootDev rootName
          (xs ++ FsNode.dir bn true bdev bc bm ba false bch :: ys) v =
        Scan.traverse_entries opts rootDev rootName (xs ++ ys) v) ∧
    (∀ (nm : String) (dev : Nat) (tCr tMo tAc bn : String) (bdev : Nat)
        (bc bm ba : String) (blok : Bool) (bch : List FsNode)
        (xs ys : List FsNode) (isRoot : Bool) (v : List Nat),
      xs ++ ys ≠ [] ∨ opts.include_empty_folders = true →
      Scan.traverse_directory_to_xml opts rootDev
          (.dir nm true dev tCr tMo tAc true
            (xs ++ FsNode.dir bn false bdev bc bm ba blok bch :: ys))
          isRoot rootName v =
        Scan.traverse_directory_to_xml opts rootDev
          (.dir nm true dev tCr tMo tAc true (xs ++ ys)) isRoot rootName v) := by
  refine ⟨?_, ?_, ?_, ?_⟩
  · intro nm dev tCr tMo tAc lok ch isRoot v
    exact Scan.trav_meta_err opts rootDev nm dev tCr tMo tAc lok ch isRoot rootName v
  · intro nm dev tCr tMo tAc ch isRoot v
    exact Scan.trav_list_err opts rootDev nm dev tCr tMo tAc ch isRoot rootName v
  · intro bn bdev bc bm ba bch xs ys v
    exact entries_noop_removed opts rootDev rootName _
      (fun v' => Scan.trav_list_err opts rootDev bn bdev bc bm ba bch false rootName v')
      xs ys v
  · intro nm dev tCr tMo tAc bn bdev bc bm ba blok bch xs ys isRoot v hne
    exact trav_invisible_sibling opts rootDev nm dev tCr tMo tAc xs ys
      (FsNode.dir bn false bdev bc bm ba blok bch) isRoot rootName v rfl rfl hne

/-- Witness for the silent-failure theorem on concrete trees. -/
theorem unreadable_directory_silent_witness :
    Scan.traverse_directory_to_xml optsDefault 0
        (.dir "bad" false 0 "T" "T" "T" true []) true "r" [] = ([], []) ∧
    Scan.traverse_directory_to_xml optsDefault 0
        (.dir "bad" true 0 "T" "T" "T" false [.file "x" true (mkMeta 1 5)])
        true "r" [] = ([], []) ∧
    Scan.traverse_entries optsDefault 0 "r"
        ([FsNode.dir "a" true 0 "T" "T" "T" true [.file "x" true (mkMeta 1 5)]] ++
          FsNode.dir "bad" true 0 "T" "T" "T" false [] :: []) [] =
      Scan.traverse_entries optsDefault 0 "r"
        ([FsNode.dir "a" true 0 "T" "T" "T" true [.file "x" true (mkMeta 1 5)]] ++ []) [] ∧
    (([FsNode.file "x" true (mkMeta 1 5)] ++ ([] : List FsNode) ≠ [] ∨
        optsDefault.include_empty_folders = true) ∧
      Scan.traverse_directory_to_xml optsDefault 0
          (.dir "r" true 0 "T" "T" "T" true
            ([FsNode.file "x" true (mkMeta 1 5)] ++
              FsNode.dir "bad" false 0 "T" "T" "T" true [] :: [])) true "r" [] =
        Scan.traverse_directory_to_xml optsDefault 0
          (.dir "r" true 0 "T" "T" "T" true
            ([FsNode.file "x" true (mkMeta 1 5)] ++ [])) true "r" []) :=
  ⟨(unreadable_directory_silent optsDefault 0 "r").1 "bad" 0 "T" "T" "T" true [] true [],
   (unreadable_directory_silent optsDefault 0 "r").2.1 "bad" 0 "T" "T" "T"
     [.file "x" true (mkMeta 1 5)] true [],
   (unreadable_directory_silent optsDefault 0 "r").2.2.1 "bad" 0 "T" "T" "T" []
     [FsNode.dir "a" true 0 "T" "T" "T" true [.file "x" true (mkMeta 1 5)]] [] [],
   ⟨Or.inl (by simp),
    (unreadable_directory_silent optsDefault 0 "r").2.2.2 "r" 0 "T" "T" "T" "bad" 0
      "T" "T" "T" true [] [FsNode.file "x" true (mkMeta 1 5)] [] true []
      (Or.inl (by simp))⟩⟩

/-- C10: a directory entry that is neither a regular file, a directory, nor
a symbolic link (for example a socket, FIFO, or device node) produces no
File or Folder element, is not recursed into, never touches the inode
tracker, and leaves the processing of its siblings unchanged: the traversal
result equals that of the same tree without the entry. -/
theorem unknown_file_type_ignored (opts : Options) (rootDev : Nat)
    (nm : String) (dev : Nat) (tCr tMo tAc onm : String)
    (xs ys : List FsNode) (isRoot : Bool) (rootName : String) (v : List Nat)
    (hne : xs ++ ys ≠ [] ∨ opts.include_empty_folders = true) :
    Scan.traverse_directory_to_xml opts rootDev
        (.dir nm true dev tCr tMo tAc true (xs ++ FsNode.other onm :: ys))
        isRoot rootName v =
      Scan.traverse_directory_to_xml opts rootDev
        (.dir nm true dev tCr tMo tAc true (xs ++ ys)) isRoot rootName v :=
  trav_invisible_sibling opts rootDev nm dev tCr tMo tAc xs ys (FsNode.other onm)
    isRoot rootName v rfl rfl hne

/-- Witness for the unknown-file-type theorem: a socket-like entry between
two regular files changes nothing. -/
theorem unknown_file_type_ignored_witness :
    (([FsNode.file "a" true (mkMeta 1 5)] ++ [FsNode.file "c" true (mkMeta 2 6)] ≠
        ([] : List FsNode)) ∨ optsDefault.include_empty_folders = true) ∧
    Scan.traverse_directory_to_xml optsDefault 0
        (.dir "r" true 0 "T" "T" "T" true
          ([FsNode.file "a" true (mkMeta 1 5)] ++
            FsNode.other "sock" :: [FsNode.file "c" true (mkMeta 2 6)]))
        true "r" [] =
      Scan.traverse_directory_to_xml optsDefault 0
        (.dir "r" true 0 "T" "T" "T" true
          ([FsNode.file "a" true (mkMeta 1 5)] ++ [FsNode.file "c" true (mkMeta 2 6)]))
        true "r" [] :=
  ⟨Or.inl (by simp),
   unknown_file_type_ignored optsDefault 0 "r" 0 "T" "T" "T" "sock"
     [FsNode.file "a" true (mkMeta 1 5)] [FsNode.file "c" true (mkMeta 2 6)]
     true "r" [] (Or.inl (by simp))⟩

end Gpscan